import Mathlib

/-!
# Tagged Binary Format (TBF): a shallow embedding of the encoder and decoder

This file embeds the core of the TBF C++ library (`include/tbf/DataType.hpp`,
`include/tbf/DataTag.hpp`, `include/tbf/Writer.hpp`, `src/Writer.cpp`,
`src/Reader.cpp`) into Lean and proves properties of the embedding.

Modelling conventions:
* A byte buffer is a `List Nat` whose entries are byte values (`< 256` by
  construction on everything the encoder emits).
* Machine integers are `Nat` bit patterns: a C++ value of a `w`-byte
  integer or float type is represented by the `Nat` in `[0, 2^(8*w))`
  whose `w` little-endian bytes are the value's object representation.
  Two's-complement signed values and IEEE-754 floats are therefore
  represented by their bit patterns, which matches the library: it only
  ever `memcpy`s these values and never computes with them.
* The host byte order (`std::endian::native` in the C++ sources) is an
  explicit `Endian` parameter threaded through the embedding, since the
  sources select behaviour on it at compile time.
* C++ `std::unordered_map` keyed lookup with `emplace` insertion is
  modelled by an association list with first-match lookup and
  insert-if-absent, which has the same observable behaviour.
-/

namespace TBF

/-- Host byte order (`std::endian::native`).  The wire format constant
`TBF_ENDIANESS` of `Endianness.hpp` is little-endian. -/
inductive Endian where
  | little
  | big
deriving DecidableEq, Repr

/-- The `w` little-endian bytes of the value `v` (least significant first). -/
def toLE : Nat → Nat → List Nat
  | 0, _ => []
  | w + 1, v => v % 256 :: toLE w (v / 256)

/-- The value whose little-endian bytes are `bs`. -/
def fromLE : List Nat → Nat
  | [] => 0
  | b :: bs => b + 256 * fromLE bs

/-- `std::byteswap` on a `w`-byte value: reverse the byte order. -/
def byteswap (w v : Nat) : Nat := fromLE (toLE w v).reverse

/-- The in-memory object representation of a `w`-byte value on host `h`:
little-endian bytes on a little-endian host, big-endian bytes otherwise.
This is what `memcpy` out of a value produces. -/
def hostMemBytes (h : Endian) (w v : Nat) : List Nat :=
  if h = Endian.little then toLE w v else (toLE w v).reverse

/-- `AdjustEndianess` of `Endianness.hpp`: byte-swap the value when the
host byte order differs from the (little-endian) wire order. -/
def adjustEndianess (h : Endian) (w v : Nat) : Nat :=
  if h = Endian.little then v else byteswap w v

/-- `slice buf pos len`: the `len` bytes of `buf` starting at offset `pos`. -/
def slice (buf : List Nat) (pos len : Nat) : List Nat :=
  (buf.drop pos).take len

/-- A raw `memcpy` of `w` bytes at offset `pos` into a `w`-byte integer,
interpreted in the host byte order (no endianness adjustment). -/
def memRead (h : Endian) (buf : List Nat) (pos w : Nat) : Nat :=
  if h = Endian.little then fromLE (slice buf pos w)
  else fromLE (slice buf pos w).reverse

@[simp] theorem length_toLE (w v : Nat) : (toLE w v).length = w := by
  induction w generalizing v with
  | zero => rfl
  | succ n ih => simp [toLE, ih]

theorem toLE_lt (w v : Nat) : ∀ b ∈ toLE w v, b < 256 := by
  induction w generalizing v with
  | zero => simp [toLE]
  | succ n ih =>
    intro b hb
    simp only [toLE, List.mem_cons] at hb
    rcases hb with rfl | hb
    · exact Nat.mod_lt _ (by norm_num)
    · exact ih _ b hb

theorem mod_mul_decomp (v K : Nat) :
    v % (256 * K) = v % 256 + 256 * (v / 256 % K) := by
  rcases Nat.eq_zero_or_pos K with rfl | hK
  · have h := Nat.div_add_mod v 256
    simp only [Nat.mul_zero, Nat.mod_zero]
    omega
  · have hr : v % 256 < 256 := Nat.mod_lt _ (by norm_num)
    have hrk : v / 256 % K < K := Nat.mod_lt _ hK
    have hv : v = 256 * K * (v / 256 / K) + (256 * (v / 256 % K) + v % 256) := by
      have h1 := Nat.div_add_mod v 256
      have h2 := Nat.div_add_mod (v / 256) K
      calc v = 256 * (v / 256) + v % 256 := by omega
        _ = 256 * (K * (v / 256 / K) + v / 256 % K) + v % 256 := by rw [h2]
        _ = 256 * K * (v / 256 / K) + (256 * (v / 256 % K) + v % 256) := by ring
    conv_lhs => rw [hv]
    rw [Nat.mul_add_mod, Nat.mod_eq_of_lt (by omega)]
    omega

theorem fromLE_toLE (w v : Nat) : fromLE (toLE w v) = v % 256 ^ w := by
  induction w generalizing v with
  | zero => simp [toLE, fromLE, Nat.mod_one]
  | succ n ih =>
    simp only [toLE, fromLE, ih]
    rw [pow_succ, mul_comm (256 ^ n) 256, mod_mul_decomp]

theorem fromLE_toLE_of_lt {w v : Nat} (hv : v < 256 ^ w) :
    fromLE (toLE w v) = v := by
  rw [fromLE_toLE, Nat.mod_eq_of_lt hv]

theorem toLE_fromLE (bs : List Nat) (hb : ∀ b ∈ bs, b < 256) :
    toLE bs.length (fromLE bs) = bs := by
  induction bs with
  | nil => rfl
  | cons b rest ih =>
    have hbb : b < 256 := hb b (by simp)
    have hmod : (b + 256 * fromLE rest) % 256 = b := by
      rw [Nat.add_mul_mod_self_left, Nat.mod_eq_of_lt hbb]
    have hdiv : (b + 256 * fromLE rest) / 256 = fromLE rest := by
      rw [Nat.add_mul_div_left _ _ (by norm_num : (0:Nat) < 256),
        Nat.div_eq_of_lt hbb, Nat.zero_add]
    simp only [List.length_cons, toLE, fromLE, hmod, hdiv]
    exact congrArg _ (ih fun x hx => hb x (List.mem_cons_of_mem _ hx))

theorem fromLE_lt (bs : List Nat) (hb : ∀ b ∈ bs, b < 256) :
    fromLE bs < 256 ^ bs.length := by
  induction bs with
  | nil => simp [fromLE]
  | cons b rest ih =>
    have hbb : b < 256 := hb b (by simp)
    have hr := ih fun x hx => hb x (List.mem_cons_of_mem _ hx)
    simp only [fromLE, List.length_cons, pow_succ]
    calc b + 256 * fromLE rest < 256 + 256 * fromLE rest := by omega
      _ ≤ 256 * 256 ^ rest.length := by
          have : fromLE rest + 1 ≤ 256 ^ rest.length := hr
          nlinarith
      _ = 256 ^ rest.length * 256 := by ring

/-- On either host, writing a `w`-byte value with the endianness adjustment
applied first (`WriteData` with `swap_endianess = true`, or
`WriteDataSizeField`) emits the value's little-endian wire bytes. -/
theorem hostMemBytes_adjust (h : Endian) (w v : Nat) :
    hostMemBytes h w (adjustEndianess h w v) = toLE w v := by
  cases h with
  | little => simp [hostMemBytes, adjustEndianess]
  | big =>
    simp only [hostMemBytes, adjustEndianess, byteswap, reduceCtorEq, if_false]
    have hlen : (toLE w v).reverse.length = w := by simp
    have hlt : ∀ b ∈ (toLE w v).reverse, b < 256 := by
      intro b hb
      exact toLE_lt w v b (List.mem_reverse.mp hb)
    calc (toLE w (fromLE (toLE w v).reverse)).reverse
        = (toLE (toLE w v).reverse.length (fromLE (toLE w v).reverse)).reverse := by
          rw [hlen]
      _ = ((toLE w v).reverse).reverse := by rw [toLE_fromLE _ hlt]
      _ = toLE w v := List.reverse_reverse _

/-- `ReadData` with `swap_endianess = true`: the raw `memcpy` followed by
`AdjustEndianess` recovers the little-endian interpretation of the bytes
read, on either host. -/
theorem adjust_memRead (h : Endian) (buf : List Nat) (pos w : Nat)
    (hw : (slice buf pos w).length = w)
    (hb : ∀ b ∈ slice buf pos w, b < 256) :
    adjustEndianess h w (memRead h buf pos w) = fromLE (slice buf pos w) := by
  cases h with
  | little => simp [adjustEndianess, memRead]
  | big =>
    simp only [adjustEndianess, memRead, byteswap, reduceCtorEq, if_false]
    have hlen : (slice buf pos w).reverse.length = w := by simp [hw]
    have hlt : ∀ b ∈ (slice buf pos w).reverse, b < 256 := by
      intro b hbm
      exact hb b (List.mem_reverse.mp hbm)
    calc fromLE (toLE w (fromLE (slice buf pos w).reverse)).reverse
        = fromLE (toLE (slice buf pos w).reverse.length
            (fromLE (slice buf pos w).reverse)).reverse := by rw [hlen]
      _ = fromLE ((slice buf pos w).reverse).reverse := by rw [toLE_fromLE _ hlt]
      _ = fromLE (slice buf pos w) := by rw [List.reverse_reverse]

/-! ## Type taxonomy (`DataType.hpp`)

The 1-byte type code is modelled as a `Nat` byte value; the `enum class
DataType` constants keep their source names. -/

def CLASSIFICATION_MASK : Nat := 0xF0

def BASE_TYPE_MASK : Nat := 0x0F

namespace DataType

def Raw : Nat := 0x00

def Array : Nat := 0xA0

def Vector2 : Nat := 0x20

def Vector3 : Nat := 0x30

def Vector4 : Nat := 0x40

def Int8 : Nat := 0x00

def Int16 : Nat := 0x01

def Int32 : Nat := 0x02

def Int64 : Nat := 0x03

def UInt8 : Nat := 0x04

def UInt16 : Nat := 0x05

def UInt32 : Nat := 0x06

def UInt64 : Nat := 0x07

def Boolean : Nat := 0x08

def Float16 : Nat := 0x09

def Float32 : Nat := 0x0A

def Float64 : Nat := 0x0B

def UUID : Nat := 0x0C

def String : Nat := 0x0D

def Binary : Nat := 0x0E

def Object : Nat := 0x0F

def Int8Array : Nat := 0xA0

def Int16Array : Nat := 0xA1

def Int32Array : Nat := 0xA2

def Int64Array : Nat := 0xA3

def UInt8Array : Nat := 0xA4

def UInt16Array : Nat := 0xA5

def UInt32Array : Nat := 0xA6

def UInt64Array : Nat := 0xA7

def BooleanArray : Nat := 0xA8

def Float16Array : Nat := 0xA9

def Float32Array : Nat := 0xAA

def Float64Array : Nat := 0xAB

def UUIDArray : Nat := 0xAC

def StringArray : Nat := 0xAD

def BinaryArray : Nat := 0xAE

def ObjectArray : Nat := 0xAF

def Invalid : Nat := 0xFF

end DataType

/-- `TypeClassification`: the upper nibble of the type byte. -/
def TypeClassification (t : Nat) : Nat := t &&& CLASSIFICATION_MASK

/-- `BaseDataType`: the lower nibble of the type byte. -/
def BaseDataType (t : Nat) : Nat := t &&& BASE_TYPE_MASK

/-- `IsPrimitiveType`: classification is `Raw`. -/
def IsPrimitiveType (t : Nat) : Bool := TypeClassification t == DataType.Raw

/-- `IsVectorType`: classification between `Vector2` and `Vector4`. -/
def IsVectorType (t : Nat) : Bool :=
  decide (DataType.Vector2 ≤ TypeClassification t) &&
    decide (TypeClassification t ≤ DataType.Vector4)

/-- `IsArrayType`: classification is `Array`. -/
def IsArrayType (t : Nat) : Bool := TypeClassification t == DataType.Array

/-- `IsDynamicArrayType`: string, binary or object array. -/
def IsDynamicArrayType (t : Nat) : Bool :=
  t == DataType.StringArray || t == DataType.BinaryArray ||
    t == DataType.ObjectArray

/-- `IsFixedSizeArrayType`. -/
def IsFixedSizeArrayType (t : Nat) : Bool :=
  IsArrayType t && !IsDynamicArrayType t

/-- `IsPrimitive`: the base type is not in the `NonPrimitive` group. -/
def IsPrimitive (t : Nat) : Bool := (t &&& 0b1100) != 0b1100

/-- `IsValidDataType`: the `switch` on the classification. -/
def IsValidDataType (t : Nat) : Bool :=
  if TypeClassification t = DataType.Raw then true
  else if TypeClassification t = DataType.Array then true
  else if TypeClassification t = DataType.Vector2 ∨
      TypeClassification t = DataType.Vector3 ∨
      TypeClassification t = DataType.Vector4 then IsPrimitive t
  else false

/-- `DataTypeSize`: the size in bytes of each fixed-width base type. -/
def DataTypeSize (t : Nat) : Nat :=
  if t = DataType.Int8 ∨ t = DataType.UInt8 ∨ t = DataType.Boolean then 1
  else if t = DataType.Int16 ∨ t = DataType.UInt16 ∨ t = DataType.Float16 then 2
  else if t = DataType.Int32 ∨ t = DataType.UInt32 ∨ t = DataType.Float32 then 4
  else if t = DataType.Int64 ∨ t = DataType.UInt64 ∨ t = DataType.Float64 then 8
  else if t = DataType.UUID then 16
  else 0

/-- `VectorTypeDimension`. -/
def VectorTypeDimension (t : Nat) : Nat :=
  if TypeClassification t = DataType.Vector2 then 2
  else if TypeClassification t = DataType.Vector3 then 3
  else if TypeClassification t = DataType.Vector4 then 4
  else 0

/-! ## Tag model (`DataTag.hpp`)

Tag names are byte strings (`List Nat` of character codes), matching the
C++ `char` comparisons of `TagNameHash` and `IsValidTagChar`. -/

/-- The restricted-alphabet mapping inside `TagNameHash`: letters (either
case) map to `1..26`, digits to `27..36`, underscore (code 95) to `37`,
anything else to `0`.  Character codes: `a..z` = 97..122, `A..Z` = 65..90,
`0..9` = 48..57. -/
def tagCharMap (c : Nat) : Nat :=
  if 97 ≤ c ∧ c ≤ 122 then c - 97 + 1
  else if 65 ≤ c ∧ c ≤ 90 then c - 65 + 1
  else if 48 ≤ c ∧ c ≤ 57 then c - 48 + 27
  else if c = 95 then 37
  else 0

/-- One round of the hash loop: XOR in the mapped byte, then multiply by
the 32-bit FNV prime, in `uint32_t` arithmetic. -/
def tagHashRound (hash c : Nat) : Nat :=
  ((hash ^^^ tagCharMap c) * 16777619) % 2 ^ 32

/-- `TagNameHash` of `DataTag.hpp`: 32-bit FNV-1a over the mapped bytes,
written as the source's accumulator loop. -/
def TagNameHash (s : List Nat) : Nat :=
  go 2166136261 s
where
  go : Nat → List Nat → Nat
    | hash, [] => hash
    | hash, c :: rest => go (tagHashRound hash c) rest

/-- The tag id derived from a literal name:
`static_cast<Id>(TagNameHash(name))`, i.e. the low 16 bits. -/
def tagIdOfName (s : List Nat) : Nat := TagNameHash s % 2 ^ 16

/-- `IsValidTagChar`. -/
def IsValidTagChar (c : Nat) : Bool :=
  (97 ≤ c && c ≤ 122) || (65 ≤ c && c ≤ 90) || (48 ≤ c && c ≤ 57) || c == 95

/-- `IsTagNameValid`: nonempty, at most 255 bytes, all characters valid. -/
def IsTagNameValid (s : List Nat) : Bool :=
  !(s.isEmpty) && s.length ≤ 255 && s.all IsValidTagChar

/-- `DataTag`: a 16-bit id together with an optional printable name. -/
structure DataTag where
  id : Nat
  name : List Nat
deriving DecidableEq, Repr

/-! ## The hash contract (C9) -/

/-- The alphabet mapping exactly as the specification words it: a-z and
A-Z map to 1..26 (case-insensitively), 0-9 to 27..36, underscore to 37,
anything else to 0. -/
def specCharMap (c : Nat) : Nat :=
  if 97 ≤ c ∧ c ≤ 122 then c - 96
  else if 65 ≤ c ∧ c ≤ 90 then c - 64
  else if 48 ≤ c ∧ c ≤ 57 then c - 48 + 27
  else if c = 95 then 37
  else 0

/-- The FNV-1a schedule exactly as the specification words it: start from
2166136261, XOR in the mapped value of each character, multiply by
16777619 modulo 2^32; stated as a left fold over the string. -/
def specFnv1a (s : List Nat) : Nat :=
  s.foldl (fun hash c => ((hash ^^^ specCharMap c) * 16777619) % 2 ^ 32) 2166136261

/-- Lowercasing a character code: A-Z shifts down into a-z, everything
else is unchanged. -/
def lowerByte (c : Nat) : Nat := if 65 ≤ c ∧ c ≤ 90 then c + 32 else c

theorem tagCharMap_lowerByte (c : Nat) :
    tagCharMap (lowerByte c) = tagCharMap c := by
  unfold lowerByte tagCharMap
  split_ifs <;> omega

theorem tagCharMap_eq_specCharMap (c : Nat) : tagCharMap c = specCharMap c := by
  unfold tagCharMap specCharMap
  split_ifs <;> omega

theorem tagHashGo_foldl (s : List Nat) (a : Nat) :
    TagNameHash.go a s =
      s.foldl (fun hash c => ((hash ^^^ specCharMap c) * 16777619) % 2 ^ 32) a := by
  induction s generalizing a with
  | nil => rfl
  | cons c rest ih =>
    simp [TagNameHash.go, tagHashRound, List.foldl_cons, ih,
      tagCharMap_eq_specCharMap]

theorem tagHashGo_lower (s : List Nat) (a : Nat) :
    TagNameHash.go a (s.map lowerByte) = TagNameHash.go a s := by
  induction s generalizing a with
  | nil => rfl
  | cons c rest ih =>
    simp [TagNameHash.go, tagHashRound, tagCharMap_lowerByte, ih]

/-- C9: the tag-id hash follows the FNV-1a schedule of the specification
exactly — starting from 2166136261, each character's mapped value
(letters 1..26 case-insensitively, digits 27..36, underscore 37, other
characters 0) is XORed in and the result multiplied by 16777619 modulo
2^32 — and the tag id is the low 16 bits; the hash is invariant under
lowercasing a name, and in particular `tag_id "foo" = tag_id "FOO"`
(byte strings [102,111,111] and [70,79,79]). -/
theorem c9_tag_hash_schedule :
    (∀ s : List Nat, TagNameHash s = specFnv1a s) ∧
    (∀ s : List Nat, tagIdOfName s = specFnv1a s % 2 ^ 16) ∧
    (∀ s : List Nat, TagNameHash (s.map lowerByte) = TagNameHash s) ∧
    tagIdOfName [102, 111, 111] = tagIdOfName [70, 79, 79] := by
  refine ⟨fun s => tagHashGo_foldl s 2166136261,
    fun s => ?_, fun s => tagHashGo_lower s 2166136261, by decide⟩
  unfold tagIdOfName TagNameHash
  rw [tagHashGo_foldl]
  rfl

/-! ## Encoder (`Writer.hpp` / `Writer.cpp`)

The growable byte buffer is a `List Nat`; buffer capacity management
(`ReserveBuffer`, grow sizes) only affects allocation, not contents, and
is not modelled.  `ObjectWriter` and `ArrayWriter` handles hold the offset
of their reserved 4-byte size slot and their `m_is_finished` flag; the
shared `Writer` they reference is passed explicitly. -/

/-- Encoder state: host byte order (compile-time in C++), the tag mode
flag `m_name_based`, and the output buffer `m_buffer`. -/
structure Writer where
  host : Endian
  nameBased : Bool
  buffer : List Nat
deriving DecidableEq, Repr

/-- `Writer::WriteData(const void*, size_t)`: append raw bytes. -/
def writeDataRaw (w : Writer) (data : List Nat) : Writer :=
  { w with buffer := w.buffer ++ data }

/-- `Writer::WriteData<Type, swap_endianess>(value)`: for multi-byte types
optionally apply `AdjustEndianess`, then append the value's in-memory
bytes; single-byte types are pushed directly (`% 256` is the `uint8_t`
cast). -/
def writeDataNum (swap : Bool) (width v : Nat) (w : Writer) : Writer :=
  if width = 1 then { w with buffer := w.buffer ++ [v % 256] }
  else
    { w with buffer :=
        w.buffer ++
          hostMemBytes w.host width (if swap then adjustEndianess w.host width v else v) }

/-- `Writer::WriteFieldHeader`: the type byte, then the tag — in name mode
a `u8` length byte followed by the name bytes, in id mode the id as a
little-endian `u16` (`WriteData<DataTag::Id>` with endian adjustment). -/
def writeFieldHeader (w : Writer) (tag : DataTag) (ty : Nat) : Writer :=
  let w1 := writeDataNum true 1 ty w
  if w1.nameBased then
    writeDataRaw (writeDataNum true 1 tag.name.length w1) tag.name
  else
    writeDataNum true 2 tag.id w1

/-- `Writer::ReserveDataSizeField`: remember the current offset and append
four zero bytes. -/
def reserveDataSizeField (w : Writer) : Writer × Nat :=
  ({ w with buffer := w.buffer ++ [0, 0, 0, 0] }, w.buffer.length)

/-- Overwrite the four bytes of `buf` at `off` with `bs`. -/
def patchBytes (buf : List Nat) (off : Nat) (bs : List Nat) : List Nat :=
  buf.take off ++ bs ++ buf.drop (off + bs.length)

/-- `Writer::WriteDataSizeField`: back-patch the reserved slot at `off`
with `buffer.size() - off - 4` as a `FieldSize` (`uint32_t`), endian
adjusted to the little-endian wire order. -/
def writeDataSizeField (w : Writer) (off : Nat) : Writer :=
  { w with buffer := patchBytes w.buffer off (hostMemBytes w.host 4 (adjustEndianess w.host 4 ((w.buffer.length - off - 4) % 2 ^ 32))) }

/-- `Writer::WriteString`: the length as `uint16_t` (truncating cast) then
that many bytes of the string. -/
def writeString (w : Writer) (s : List Nat) : Writer :=
  writeDataRaw (writeDataNum true 2 (s.length % 2 ^ 16) w) (s.take (s.length % 2 ^ 16))

/-- `Writer::WriteBinary`: the size as a `FieldSize` then that many
bytes. -/
def writeBinary (w : Writer) (data : List Nat) : Writer :=
  writeDataRaw (writeDataNum true 4 (data.length % 2 ^ 32) w)
    (data.take (data.length % 2 ^ 32))

/-- An `ObjectWriter` handle: the offset of its reserved size slot
(`m_obj_size_pos`) and `m_is_finished`. -/
structure ObjectWriter where
  objSizePos : Nat
  isFinished : Bool
deriving DecidableEq, Repr

/-- `ObjectWriter::ObjectWriter(Writer&)`: reserve the size slot. -/
def objectWriterMk (w : Writer) : Writer × ObjectWriter :=
  let (w1, pos) := reserveDataSizeField w
  (w1, ⟨pos, false⟩)

/-- `ObjectWriter::Finish`: back-patch the size slot unless already
finished; idempotent by the `IsFinished` guard. -/
def objectFinish (w : Writer) (ow : ObjectWriter) : Writer × ObjectWriter :=
  if ow.isFinished then (w, ow)
  else (writeDataSizeField w ow.objSizePos, { ow with isFinished := true })

/-- Destroying an `ObjectWriter` handle: the class declares no destructor,
so going out of scope runs the implicitly-defaulted destructor, which does
not touch the shared buffer. -/
def objectWriterDestroy (w : Writer) (_ow : ObjectWriter) : Writer := w

/-- An `ArrayWriter` handle (`m_array_size_pos`, `m_is_finished`). -/
structure ArrayWriter where
  arraySizePos : Nat
  isFinished : Bool
deriving DecidableEq, Repr

/-- `ArrayWriter::ArrayWriter(ObjectWriter&)`: reserve the size slot. -/
def arrayWriterMk (w : Writer) : Writer × ArrayWriter :=
  let (w1, pos) := reserveDataSizeField w
  (w1, ⟨pos, false⟩)

/-- `ArrayWriter::Finish`: back-patch unless already finished. -/
def arrayFinish (w : Writer) (aw : ArrayWriter) : Writer × ArrayWriter :=
  if aw.isFinished then (w, aw)
  else (writeDataSizeField w aw.arraySizePos, { aw with isFinished := true })

/-- `ArrayWriter::~ArrayWriter() { Finish(); }`: destroying any of the
three variable-element array writers runs `Finish`. -/
def arrayWriterDestroy (w : Writer) (aw : ArrayWriter) : Writer :=
  (arrayFinish w aw).1

/-- `Writer::Writer(name_based, ...)`: the constructor creates the root
`ObjectWriter`, which reserves the root size slot in the fresh buffer. -/
def writerMk (h : Endian) (nb : Bool) : Writer × ObjectWriter :=
  objectWriterMk ⟨h, nb, []⟩

/-! ### Field methods (`ObjectWriter::Field*`) -/

def fieldInt8 (w : Writer) (tag : DataTag) (v : Nat) : Writer :=
  writeDataNum true 1 v (writeFieldHeader w tag DataType.Int8)

def fieldInt16 (w : Writer) (tag : DataTag) (v : Nat) : Writer :=
  writeDataNum true 2 v (writeFieldHeader w tag DataType.Int16)

def fieldInt32 (w : Writer) (tag : DataTag) (v : Nat) : Writer :=
  writeDataNum true 4 v (writeFieldHeader w tag DataType.Int32)

def fieldInt64 (w : Writer) (tag : DataTag) (v : Nat) : Writer :=
  writeDataNum true 8 v (writeFieldHeader w tag DataType.Int64)

def fieldUInt8 (w : Writer) (tag : DataTag) (v : Nat) : Writer :=
  writeDataNum true 1 v (writeFieldHeader w tag DataType.UInt8)

def fieldUInt16 (w : Writer) (tag : DataTag) (v : Nat) : Writer :=
  writeDataNum true 2 v (writeFieldHeader w tag DataType.UInt16)

def fieldUInt32 (w : Writer) (tag : DataTag) (v : Nat) : Writer :=
  writeDataNum true 4 v (writeFieldHeader w tag DataType.UInt32)

def fieldUInt64 (w : Writer) (tag : DataTag) (v : Nat) : Writer :=
  writeDataNum true 8 v (writeFieldHeader w tag DataType.UInt64)

/-- `FieldBoolean`: the `bool` is cast to a single byte 0 or 1. -/
def fieldBoolean (w : Writer) (tag : DataTag) (v : Bool) : Writer :=
  writeDataNum true 1 (if v then 1 else 0) (writeFieldHeader w tag DataType.Boolean)

/-- `FieldFloat16`: written with `swap_endianess = false` (raw host byte
order), unlike the integer fields. -/
def fieldFloat16 (w : Writer) (tag : DataTag) (v : Nat) : Writer :=
  writeDataNum false 2 v (writeFieldHeader w tag DataType.Float16)

/-- `FieldFloat32`: the float is `bit_cast` to `uint32_t` and written with
`swap_endianess = false` (raw host byte order). -/
def fieldFloat32 (w : Writer) (tag : DataTag) (v : Nat) : Writer :=
  writeDataNum false 4 v (writeFieldHeader w tag DataType.Float32)

/-- `FieldFloat64`: the double is `bit_cast` to `uint64_t` and written
with `swap_endianess = false` (raw host byte order). -/
def fieldFloat64 (w : Writer) (tag : DataTag) (v : Nat) : Writer :=
  writeDataNum false 8 v (writeFieldHeader w tag DataType.Float64)

def fieldString (w : Writer) (tag : DataTag) (s : List Nat) : Writer :=
  writeString (writeFieldHeader w tag DataType.String) s

def fieldBinary (w : Writer) (tag : DataTag) (data : List Nat) : Writer :=
  writeBinary (writeFieldHeader w tag DataType.Binary) data

/-- `FieldObject`: write the header and open a nested `ObjectWriter`. -/
def fieldObject (w : Writer) (tag : DataTag) : Writer × ObjectWriter :=
  objectWriterMk (writeFieldHeader w tag DataType.Object)

/-- Byte-swap the first `count` chunks of `width` bytes each, leaving the
remainder unchanged: the effect of `AdjustArrayEndianess<width>(p, count)`
on the bytes starting at `p`. -/
def swapChunks (width : Nat) : Nat → List Nat → List Nat
  | 0, bs => bs
  | n + 1, bs => (bs.take width).reverse ++ swapChunks width n (bs.drop width)

/-- `AdjustArrayEndianess` applied in place at offset `off` of `buf`: a
no-op on a little-endian host or for 1-byte elements. -/
def adjustArrayEndianess (h : Endian) (width count : Nat) (buf : List Nat)
    (off : Nat) : List Nat :=
  if h = Endian.little ∨ width ≤ 1 then buf
  else buf.take off ++ swapChunks width count (buf.drop off)

/-- `ObjectWriter::FieldArray<Type>`: header, the `FieldSize`
`length * sizeof(Type)` (`uint32_t` arithmetic), a `memcpy` of `size`
bytes of the caller's elements in host byte order, then an in-place
`AdjustArrayEndianess` over `length` elements.  `vals` carries the
caller's `length` element values, each a `width`-byte bit pattern. -/
def fieldArray (w : Writer) (tag : DataTag) (arrayType width : Nat)
    (vals : List Nat) : Writer :=
  let w1 := writeFieldHeader w tag arrayType
  let size := vals.length % 2 ^ 32 * width % 2 ^ 32
  let w2 := writeDataNum true 4 size w1
  let off := w2.buffer.length
  let w3 := writeDataRaw w2 (((vals.map (hostMemBytes w2.host width)).flatten).take size)
  { w3 with buffer :=
      adjustArrayEndianess w3.host width (vals.length % 2 ^ 32) w3.buffer off }

/-- `FieldStringArray` (scoped form): header, then open a
`StringArrayWriter`. -/
def fieldStringArray (w : Writer) (tag : DataTag) : Writer × ArrayWriter :=
  arrayWriterMk (writeFieldHeader w tag DataType.StringArray)

/-- `FieldBinaryArray` (scoped form). -/
def fieldBinaryArray (w : Writer) (tag : DataTag) : Writer × ArrayWriter :=
  arrayWriterMk (writeFieldHeader w tag DataType.BinaryArray)

/-- `FieldObjectArray`. -/
def fieldObjectArray (w : Writer) (tag : DataTag) : Writer × ArrayWriter :=
  arrayWriterMk (writeFieldHeader w tag DataType.ObjectArray)

/-- `StringArrayWriter::AddElement`. -/
def stringArrayAddElement (w : Writer) (s : List Nat) : Writer :=
  writeString w s

/-- `BinaryArrayWriter::AddElement`. -/
def binaryArrayAddElement (w : Writer) (data : List Nat) : Writer :=
  writeBinary w data

/-- `ObjectArrayWriter::CreateElement`: open a bare `ObjectWriter` on the
shared writer (no field header — elements of an object array carry no
tag). -/
def objectArrayCreateElement (w : Writer) : Writer × ObjectWriter :=
  objectWriterMk w

/-! ## Decoder (`Reader.hpp` / `Reader.cpp`)

`ObjectReader`'s tag cache is the union of an id-keyed and a name-keyed
`std::unordered_map` populated with `emplace`; it is modelled by an
association list with first-match lookup and insert-if-absent, which is
observably the same map.  The in-place endian normalization performed by
`CreateCache` is modelled by returning the mutated buffer. -/

/-- A cache key: the tag name bytes (name mode) or the 16-bit id read from
the wire (id mode). -/
inductive CacheKey where
  | byName (bs : List Nat)
  | byId (n : Nat)
deriving DecidableEq, Repr

/-- The `CacheValue` union: an inline primitive value (stored as the bit
pattern the indexing pass produced) or a pointer into the buffer,
represented as a byte offset. -/
inductive CacheValue where
  | vint (bits : Nat)
  | vptr (off : Nat)
deriving DecidableEq, Repr

/-- A `CacheEntry`: the field's type byte and its value or location. -/
structure CacheEntry where
  type : Nat
  value : CacheValue
deriving DecidableEq, Repr

/-- `unordered_map::find`: first (and in fact only) binding of the key. -/
def cacheFind (c : List (CacheKey × CacheEntry)) (k : CacheKey) :
    Option CacheEntry :=
  match c with
  | [] => none
  | p :: rest => if p.1 = k then some p.2 else cacheFind rest k

/-- `unordered_map::emplace`: insert only if the key is not yet present
(an `emplace` with an existing key does nothing). -/
def cacheEmplace (c : List (CacheKey × CacheEntry)) (k : CacheKey)
    (e : CacheEntry) : List (CacheKey × CacheEntry) :=
  if (cacheFind c k).isSome then c else c ++ [(k, e)]

/-- `CanAccessBuffer(beg, end, size)`: at least `size` bytes between the
cursor and the region end.  (All call sites maintain `pos ≤ endPos`.) -/
def canAccessBuffer (pos endPos size : Nat) : Bool :=
  decide (size ≤ endPos - pos)

/-- `ReadData<Type>` (with `swap_endianess = true`): bounds-check, then
`memcpy` and `AdjustEndianess`; returns the value and the advanced
cursor. -/
def tryReadData (h : Endian) (buf : List Nat) (endPos pos w : Nat) :
    Option (Nat × Nat) :=
  if canAccessBuffer pos endPos w then
    some (adjustEndianess h w (memRead h buf pos w), pos + w)
  else none

/-- The walk state of `ObjectReader::CreateCache`: the (possibly
endian-normalized) buffer, the cursor, the cache built so far, and the
`errors` flag. -/
structure WalkState where
  buf : List Nat
  pos : Nat
  cache : List (CacheKey × CacheEntry)
  errors : Bool
deriving DecidableEq, Repr

/-- The `switch (type)` of `CreateCache`'s primitive branch: inline
primitives are read (endian-adjusted) into the union, UUID/string/
binary/object record the payload pointer and skip the prefix-guided
payload; `none` models the `errors = true` outcomes.  The result is the
cache entry, the advanced cursor and the (unchanged) buffer. -/
def primEntryStep (h : Endian) (buf : List Nat) (endPos p2 ty : Nat) :
    Option (CacheEntry × Nat × List Nat) :=
  if ty = DataType.Boolean ∨ ty = DataType.UInt8 ∨ ty = DataType.Int8 then
    (tryReadData h buf endPos p2 1).map fun vp =>
      (CacheEntry.mk ty (CacheValue.vint vp.1), vp.2, buf)
  else if ty = DataType.Float16 ∨ ty = DataType.UInt16 ∨ ty = DataType.Int16 then
    (tryReadData h buf endPos p2 2).map fun vp =>
      (CacheEntry.mk ty (CacheValue.vint vp.1), vp.2, buf)
  else if ty = DataType.Float32 ∨ ty = DataType.UInt32 ∨ ty = DataType.Int32 then
    (tryReadData h buf endPos p2 4).map fun vp =>
      (CacheEntry.mk ty (CacheValue.vint vp.1), vp.2, buf)
  else if ty = DataType.Float64 ∨ ty = DataType.UInt64 ∨ ty = DataType.Int64 then
    (tryReadData h buf endPos p2 8).map fun vp =>
      (CacheEntry.mk ty (CacheValue.vint vp.1), vp.2, buf)
  else if ty = DataType.UUID then
    if canAccessBuffer p2 endPos 16 then
      some (CacheEntry.mk ty (CacheValue.vptr p2), p2 + 16, buf)
    else none
  else if ty = DataType.String then
    (tryReadData h buf endPos p2 2).map fun vp =>
      (CacheEntry.mk ty (CacheValue.vptr p2), vp.2 + vp.1, buf)
  else if ty = DataType.Object ∨ ty = DataType.Binary then
    (tryReadData h buf endPos p2 4).map fun vp =>
      (CacheEntry.mk ty (CacheValue.vptr p2), vp.2 + vp.1, buf)
  else none

/-- One iteration of the `CreateCache` loop: read the type byte, read the
tag (name-length + bytes, or raw 2-byte id), dispatch on classification to
read or skip the payload (normalizing array/vector element bytes in
place), then — unless an error occurred or the cursor passed the region
end — `emplace` the entry.  Cursor positions on error paths are
irrelevant: `errors` makes the object invalid regardless. -/
def walkStep (h : Endian) (nb : Bool) (endPos : Nat) (st : WalkState) :
    WalkState :=
  match tryReadData h st.buf endPos st.pos 1 with
  | none => { st with errors := true }
  | some (ty, p1) =>
    if !IsValidDataType ty then { st with pos := p1, errors := true }
    else
      match (if nb then
          match tryReadData h st.buf endPos p1 1 with
          | none => none
          | some (tagSize, p2) =>
            if canAccessBuffer p2 endPos tagSize then
              some (CacheKey.byName (slice st.buf p2 tagSize), p2 + tagSize)
            else none
        else
          if canAccessBuffer p1 endPos 2 then
            some (CacheKey.byId (memRead h st.buf p1 2), p1 + 2)
          else none) with
      | none => { st with pos := p1, errors := true }
      | some (key, p2) =>
        match (if IsArrayType ty then
            match tryReadData h st.buf endPos p2 4 with
            | none => none
            | some (arraySize, p3) =>
              let elementSize := DataTypeSize (BaseDataType ty)
              let buf1 :=
                if 1 < elementSize then
                  if arraySize / elementSize * elementSize = arraySize then
                    adjustArrayEndianess h elementSize (arraySize / elementSize)
                      st.buf p3
                  else st.buf
                else st.buf
              some (CacheEntry.mk ty (CacheValue.vptr p2), p3 + arraySize, buf1)
          else if IsVectorType ty then
            let vectorSize := VectorTypeDimension ty * DataTypeSize (BaseDataType ty)
            if !canAccessBuffer p2 endPos vectorSize then none
            else
              let buf1 :=
                if 1 < DataTypeSize (BaseDataType ty) then
                  adjustArrayEndianess h (DataTypeSize (BaseDataType ty))
                    (VectorTypeDimension ty) st.buf p2
                else st.buf
              some (CacheEntry.mk ty (CacheValue.vptr p2), p2 + vectorSize, buf1)
          else if IsPrimitiveType ty then
            primEntryStep h st.buf endPos p2 ty
          else none) with
        | none => { st with pos := p2, errors := true }
        | some (entry, p3, buf1) =>
          if endPos < p3 then { st with buf := buf1, pos := p3, errors := true }
          else
            { st with
              buf := buf1
              pos := p3
              cache := cacheEmplace st.cache key entry }

/-- The `CreateCache` loop: iterate `walkStep` while the cursor is before
the region end and no error has occurred.  The fuel only bounds the
iteration count; every iteration advances the cursor by at least the type
byte, so `endPos` iterations always suffice. -/
def walkLoop (h : Endian) (nb : Bool) (endPos : Nat) :
    Nat → WalkState → WalkState
  | 0, st => st
  | fuel + 1, st =>
    if st.errors then st
    else if st.pos < endPos then
      walkLoop h nb endPos fuel (walkStep h nb endPos st)
    else st

/-- `ObjectReader::CreateCache` over the object whose `size:u32` field
starts at offset `off` of `buf`: read `m_size` with a raw `memcpy` (the
constructor performs no endianness adjustment), refuse empty objects, walk
the field region, and compute `m_is_valid = !errors && read_ptr ==
buff_end`. -/
def runCreateCache (h : Endian) (nb : Bool) (buf : List Nat) (off : Nat) :
    Bool × WalkState :=
  let msize := memRead h buf off 4
  if msize = 0 then (false, ⟨buf, off + 4, [], false⟩)
  else
    let st := walkLoop h nb (off + 4 + msize) (msize + 1) ⟨buf, off + 4, [], false⟩
    (!st.errors && st.pos == off + 4 + msize, st)

/-- An `ObjectReader` after its cache has been built: the (possibly
normalized) buffer, the `m_is_valid` bit and the tag cache. -/
structure RObj where
  host : Endian
  nameBased : Bool
  buf : List Nat
  valid : Bool
  cache : List (CacheKey × CacheEntry)
deriving DecidableEq, Repr

/-- Construct an `ObjectReader` over the object starting at `off` and
build its cache (`IsValid` triggers `CreateCache` before any read). -/
def mkObjectReader (h : Endian) (nb : Bool) (buf : List Nat) (off : Nat) :
    RObj :=
  ⟨h, nb, (runCreateCache h nb buf off).2.buf, (runCreateCache h nb buf off).1,
    (runCreateCache h nb buf off).2.cache⟩

/-- `ObjectReader::FindTag`: nothing is found on an invalid object; the
lookup is by name bytes in name mode, by id in id mode. -/
def findTag (r : RObj) (tag : DataTag) : Option CacheEntry :=
  if !r.valid then none
  else if r.nameBased then cacheFind r.cache (CacheKey.byName tag.name)
  else cacheFind r.cache (CacheKey.byId tag.id)

/-- `ObjectReader::ContainsTag`. -/
def containsTag (r : RObj) (tag : DataTag) : Bool :=
  (findTag r tag).isSome

/-- `ObjectReader::GetTagType`. -/
def getTagType (r : RObj) (tag : DataTag) : Option Nat :=
  (findTag r tag).map (·.type)

/-- `ObjectReader::ReadPrimitive<Type, expected_type>`: find the tag,
require the stored type to equal the expected type, then `memcpy`
`sizeof(Type)` bytes out of the inline union value.  A pointer-valued
entry can never carry a primitive type byte, so the `vptr` case is
unreachable under the type guard; the model returns `none` there. -/
def readPrimitive (r : RObj) (tag : DataTag) (expectedType width : Nat) :
    Option Nat :=
  match findTag r tag with
  | none => none
  | some e =>
    if e.type ≠ expectedType then none
    else
      match e.value with
      | CacheValue.vint bits => some (bits % 2 ^ (8 * width))
      | CacheValue.vptr _ => none

def readInt8 (r : RObj) (tag : DataTag) : Option Nat :=
  readPrimitive r tag DataType.Int8 1

def readInt16 (r : RObj) (tag : DataTag) : Option Nat :=
  readPrimitive r tag DataType.Int16 2

def readInt32 (r : RObj) (tag : DataTag) : Option Nat :=
  readPrimitive r tag DataType.Int32 4

def readInt64 (r : RObj) (tag : DataTag) : Option Nat :=
  readPrimitive r tag DataType.Int64 8

def readUInt8 (r : RObj) (tag : DataTag) : Option Nat :=
  readPrimitive r tag DataType.UInt8 1

def readUInt16 (r : RObj) (tag : DataTag) : Option Nat :=
  readPrimitive r tag DataType.UInt16 2

def readUInt32 (r : RObj) (tag : DataTag) : Option Nat :=
  readPrimitive r tag DataType.UInt32 4

def readUInt64 (r : RObj) (tag : DataTag) : Option Nat :=
  readPrimitive r tag DataType.UInt64 8

def readBoolean (r : RObj) (tag : DataTag) : Option Nat :=
  readPrimitive r tag DataType.Boolean 1

def readFloat16 (r : RObj) (tag : DataTag) : Option Nat :=
  readPrimitive r tag DataType.Float16 2

def readFloat32 (r : RObj) (tag : DataTag) : Option Nat :=
  readPrimitive r tag DataType.Float32 4

def readFloat64 (r : RObj) (tag : DataTag) : Option Nat :=
  readPrimitive r tag DataType.Float64 8

/-- `ObjectReader::ReadPointerData`: find the tag, require the expected
type, then raw-`memcpy` the 4-byte size at the recorded pointer (no
endianness adjustment) and return it with the payload offset. -/
def readPointerData (r : RObj) (tag : DataTag) (expectedType : Nat) :
    Option (Nat × Nat) :=
  match findTag r tag with
  | none => none
  | some e =>
    if e.type ≠ expectedType then none
    else
      match e.value with
      | CacheValue.vptr p => some (memRead r.host r.buf p 4, p + 4)
      | CacheValue.vint _ => none

/-- `ObjectReader::ReadBinary` (span form): the borrowed byte slice. -/
def readBinary (r : RObj) (tag : DataTag) : Option (List Nat) :=
  (readPointerData r tag DataType.Binary).map fun sp => slice r.buf sp.2 sp.1

/-- `ObjectReader::ReadString` via `ReadStringInternal`: raw-`memcpy` the
2-byte length at the pointer (no endianness adjustment) and return the
borrowed slice after it. -/
def readString (r : RObj) (tag : DataTag) : Option (List Nat) :=
  match findTag r tag with
  | none => none
  | some e =>
    if e.type ≠ DataType.String then none
    else
      match e.value with
      | CacheValue.vptr p => some (slice r.buf (p + 2) (memRead r.host r.buf p 2))
      | CacheValue.vint _ => none

/-- `ObjectReader::ReadUUID`: the borrowed 16-byte slice. -/
def readUUID (r : RObj) (tag : DataTag) : Option (List Nat) :=
  match findTag r tag with
  | none => none
  | some e =>
    if e.type ≠ DataType.UUID then none
    else
      match e.value with
      | CacheValue.vptr p => some (slice r.buf p 16)
      | CacheValue.vint _ => none

/-- `ObjectReader::ReadObject` via `ReadObjectInternal`: a sub-reader over
the nested object's payload, sharing the borrow and the tag mode. -/
def readObject (r : RObj) (tag : DataTag) : Option RObj :=
  match findTag r tag with
  | none => none
  | some e =>
    if e.type ≠ DataType.Object then none
    else
      match e.value with
      | CacheValue.vptr p => some (mkObjectReader r.host r.nameBased r.buf p)
      | CacheValue.vint _ => none

/-- `ObjectReader::ReadVector<Type, dim>`: find the tag, require the exact
vector type, and return the recorded element pointer (as an offset). -/
def readVector (r : RObj) (tag : DataTag) (vectorType : Nat) : Option Nat :=
  match findTag r tag with
  | none => none
  | some e =>
    if e.type ≠ vectorType then none
    else
      match e.value with
      | CacheValue.vptr p => some p
      | CacheValue.vint _ => none

/-- `ObjectReader::ReadArray<Type, expected_type>` (fixed-element arrays):
get the size via `ReadPointerData`, require divisibility by the element
size, and return the host-order element values of the (already
endian-normalized) payload. -/
def readArray (r : RObj) (tag : DataTag) (expectedType : Nat) :
    Option (List Nat) :=
  match readPointerData r tag expectedType with
  | none => none
  | some sp =>
    let elementSize := DataTypeSize (BaseDataType expectedType)
    let arrayLength := sp.1 / elementSize
    if arrayLength * elementSize ≠ sp.1 then none
    else
      some ((List.range arrayLength).map fun i =>
        memRead r.host r.buf (sp.2 + i * elementSize) elementSize)

/-! ### Variable-element array readers (`ArrayReader<ElementSizeType>`) -/

/-- An `ArrayReader` after `Initialize`: the buffer, the offset of the
array's `size:u32` field (`m_array`), the element-size width
`sizeof(ElementSizeType)` (2 for strings, 4 for binary/object),
`m_element_count` and `m_valid`. -/
structure ArrReader where
  host : Endian
  buf : List Nat
  off : Nat
  esw : Nat
  count : Nat
  valid : Bool
deriving DecidableEq, Repr

/-- The `Initialize` loop.  Note the first bounds check is
`CanAccessBuffer(read_ptr, buff_end, sizeof(FieldSize))` in the source —
a constant 4 even when the element size prefix is the 2-byte
`ElementSizeType` of string arrays.  `none` models the
`Invalidate(); return/break` paths. -/
def arrInitLoop (h : Endian) (buf : List Nat) (endPos esw : Nat) :
    Nat → Nat → Nat → Option (Nat × Nat)
  | 0, pos, count => some (pos, count)
  | fuel + 1, pos, count =>
    if pos < endPos then
      if !canAccessBuffer pos endPos 4 then none
      else
        let objectSize := memRead h buf pos esw
        if !canAccessBuffer (pos + esw) endPos objectSize then none
        else arrInitLoop h buf endPos esw fuel (pos + esw + objectSize) (count + 1)
    else some (pos, count)

/-- `ArrayReader::ArrayReader` + `Initialize`: read the array size with a
raw `memcpy` (`GetArraySize`), walk the elements counting them, and set
`m_valid = (read_ptr == buff_end)`; any failed bounds check invalidates
(count 0). -/
def arrayReaderInit (h : Endian) (buf : List Nat) (off esw : Nat) : ArrReader :=
  let arraySize := memRead h buf off 4
  let endPos := off + 4 + arraySize
  match arrInitLoop h buf endPos esw (arraySize + 1) (off + 4) 0 with
  | none => ⟨h, buf, off, esw, 0, false⟩
  | some pc =>
    if pc.1 = endPos then ⟨h, buf, off, esw, pc.2, true⟩
    else ⟨h, buf, off, esw, 0, false⟩

/-- `BaseIterator::Advance`: skip the element-size field and the element
bytes. -/
def arrAdvance (h : Endian) (buf : List Nat) (esw pos : Nat) : Nat :=
  pos + esw + memRead h buf pos esw

/-- The cursor position of element `i` (the iterator starts right after
the array's `size:u32` and advances `i` times). -/
def arrElemPos (h : Endian) (buf : List Nat) (esw off : Nat) : Nat → Nat
  | 0 => off + 4
  | i + 1 => arrAdvance h buf esw (arrElemPos h buf esw off i)

/-- `ArrayReader::GetElement`: bounds-checked positional access returning
the element pointer and its size field (`BaseIterator::CurrentElement`). -/
def arrGetElement (a : ArrReader) (i : Nat) : Option (Nat × Nat) :=
  if !a.valid || decide (a.count ≤ i) then none
  else
    some (arrElemPos a.host a.buf a.esw a.off i,
      memRead a.host a.buf (arrElemPos a.host a.buf a.esw a.off i) a.esw)

/-- `StringArrayReader::GetElement` / `Iterator::operator*`: the borrowed
string bytes after the 2-byte length. -/
def stringArrayGetElement (a : ArrReader) (i : Nat) : Option (List Nat) :=
  (arrGetElement a i).map fun pe => slice a.buf (pe.1 + 2) pe.2

/-- `BinaryArrayReader::GetElement` / `Iterator::operator*`. -/
def binaryArrayGetElement (a : ArrReader) (i : Nat) : Option (List Nat) :=
  (arrGetElement a i).map fun pe => slice a.buf (pe.1 + 4) pe.2

/-- `ObjectArrayReader::GetElement` / `Iterator::operator*`: a sub-reader
over the element. -/
def objectArrayGetElement (a : ArrReader) (nb : Bool) (i : Nat) : Option RObj :=
  (arrGetElement a i).map fun pe => mkObjectReader a.host nb a.buf pe.1

/-- `ObjectReader::ReadStringArray`: type-checked construction of a
`StringArrayReader` (element size prefix width 2). -/
def readStringArray (r : RObj) (tag : DataTag) : Option ArrReader :=
  match findTag r tag with
  | none => none
  | some e =>
    if e.type ≠ DataType.StringArray then none
    else
      match e.value with
      | CacheValue.vptr p => some (arrayReaderInit r.host r.buf p 2)
      | CacheValue.vint _ => none

/-- `ObjectReader::ReadBinaryArray` (element size prefix width 4). -/
def readBinaryArray (r : RObj) (tag : DataTag) : Option ArrReader :=
  match findTag r tag with
  | none => none
  | some e =>
    if e.type ≠ DataType.BinaryArray then none
    else
      match e.value with
      | CacheValue.vptr p => some (arrayReaderInit r.host r.buf p 4)
      | CacheValue.vint _ => none

/-- `ObjectReader::ReadObjectArray` (element size prefix width 4). -/
def readObjectArray (r : RObj) (tag : DataTag) : Option ArrReader :=
  match findTag r tag with
  | none => none
  | some e =>
    if e.type ≠ DataType.ObjectArray then none
    else
      match e.value with
      | CacheValue.vptr p => some (arrayReaderInit r.host r.buf p 4)
      | CacheValue.vint _ => none

/-! ## Proof support -/

theorem pow256 (w : Nat) : (256 : Nat) ^ w = 2 ^ (8 * w) := by
  rw [show (256 : Nat) = 2 ^ 8 by norm_num, ← pow_mul]

theorem slice_pe (pre mid post : List Nat) (pos len : Nat)
    (hpos : pre.length = pos) (hlen : mid.length = len) :
    slice (pre ++ (mid ++ post)) pos len = mid := by
  subst hpos hlen
  simp [slice, List.drop_left, List.take_left]

theorem walkLoop_exit (h : Endian) (nb : Bool) (endPos fuel : Nat)
    (st : WalkState) (hcond : st.errors = true ∨ endPos ≤ st.pos) :
    walkLoop h nb endPos fuel st = st := by
  cases fuel with
  | zero => rfl
  | succ n =>
    rcases hcond with hc | hc
    · simp [walkLoop, hc]
    · simp [walkLoop, Nat.not_lt.mpr hc, ite_self]

theorem walkLoop_advance (h : Endian) (nb : Bool) (endPos fuel : Nat)
    (st : WalkState) (he : st.errors = false) (hp : st.pos < endPos) :
    walkLoop h nb endPos (fuel + 1) st =
      walkLoop h nb endPos fuel (walkStep h nb endPos st) := by
  simp [walkLoop, he, hp]

theorem walkLoop_one_field (h : Endian) (nb : Bool) (endPos fuel : Nat)
    (st : WalkState) (hf : fuel ≠ 0) (he : st.errors = false)
    (hp : st.pos < endPos) (hstep : endPos ≤ (walkStep h nb endPos st).pos) :
    walkLoop h nb endPos fuel st = walkStep h nb endPos st := by
  cases fuel with
  | zero => exact absurd rfl hf
  | succ n =>
    rw [walkLoop_advance h nb endPos n st he hp]
    exact walkLoop_exit h nb endPos n _ (Or.inr hstep)

@[simp] theorem writeDataNum_host (s : Bool) (wd v : Nat) (wr : Writer) :
    (writeDataNum s wd v wr).host = wr.host := by
  unfold writeDataNum; split <;> rfl

@[simp] theorem writeDataNum_nameBased (s : Bool) (wd v : Nat) (wr : Writer) :
    (writeDataNum s wd v wr).nameBased = wr.nameBased := by
  unfold writeDataNum; split <;> rfl

theorem writeDataNum_little (s : Bool) (wd v : Nat) (wr : Writer)
    (hh : wr.host = Endian.little) :
    writeDataNum s wd v wr = { wr with buffer := wr.buffer ++ toLE wd v } := by
  unfold writeDataNum
  by_cases h1 : wd = 1
  · subst h1
    simp [show toLE 1 v = [v % 256] from rfl]
  · simp only [h1, if_false, hh, hostMemBytes, adjustEndianess, if_pos rfl]
    cases s <;> simp

theorem writeFieldHeader_id_little (wr : Writer) (tag : DataTag) (ty : Nat)
    (hh : wr.host = Endian.little) (hnb : wr.nameBased = false) :
    writeFieldHeader wr tag ty =
      { wr with buffer := wr.buffer ++ ([ty % 256] ++ toLE 2 tag.id) } := by
  unfold writeFieldHeader
  rw [writeDataNum_little _ _ _ _ hh]
  simp only [hnb, Bool.false_eq_true, if_false]
  rw [writeDataNum_little _ _ _ _ (by simpa using hh)]
  simp [show toLE 1 ty = [ty % 256] from rfl, List.append_assoc]

/-- The twelve inline primitive types paired with their `sizeof` — the
value-width groups of the primitive `switch`. -/
def primPairs : List (Nat × Nat) :=
  [(DataType.Int8, 1), (DataType.Int16, 2), (DataType.Int32, 4),
   (DataType.Int64, 8), (DataType.UInt8, 1), (DataType.UInt16, 2),
   (DataType.UInt32, 4), (DataType.UInt64, 8), (DataType.Boolean, 1),
   (DataType.Float16, 2), (DataType.Float32, 4), (DataType.Float64, 8)]

/-- `ty` is an inline primitive type whose value occupies `w` bytes. -/
abbrev PrimTypeWidth (ty w : Nat) : Prop := (ty, w) ∈ primPairs

theorem primTypeFacts (ty w : Nat) (htw : PrimTypeWidth ty w) :
    ty < 256 ∧ 1 ≤ w ∧ w ≤ 8 ∧ IsValidDataType ty = true ∧
      IsArrayType ty = false ∧ IsVectorType ty = false ∧
      IsPrimitiveType ty = true := by
  have hall : ∀ p ∈ primPairs,
      p.1 < 256 ∧ 1 ≤ p.2 ∧ p.2 ≤ 8 ∧ IsValidDataType p.1 = true ∧
        IsArrayType p.1 = false ∧ IsVectorType p.1 = false ∧
        IsPrimitiveType p.1 = true := by decide
  exact hall (ty, w) htw

theorem primGroupFacts (ty w : Nat) (htw : PrimTypeWidth ty w) :
    (w = 1 ∨ w = 2 ∨ w = 4 ∨ w = 8) ∧
    (¬w = 1 ∨
      ty = DataType.Boolean ∨ ty = DataType.UInt8 ∨ ty = DataType.Int8) ∧
    (¬w = 2 ∨
      ¬(ty = DataType.Boolean ∨ ty = DataType.UInt8 ∨ ty = DataType.Int8) ∧
      (ty = DataType.Float16 ∨ ty = DataType.UInt16 ∨ ty = DataType.Int16)) ∧
    (¬w = 4 ∨
      ¬(ty = DataType.Boolean ∨ ty = DataType.UInt8 ∨ ty = DataType.Int8) ∧
      ¬(ty = DataType.Float16 ∨ ty = DataType.UInt16 ∨ ty = DataType.Int16) ∧
      (ty = DataType.Float32 ∨ ty = DataType.UInt32 ∨ ty = DataType.Int32)) ∧
    (¬w = 8 ∨
      ¬(ty = DataType.Boolean ∨ ty = DataType.UInt8 ∨ ty = DataType.Int8) ∧
      ¬(ty = DataType.Float16 ∨ ty = DataType.UInt16 ∨ ty = DataType.Int16) ∧
      ¬(ty = DataType.Float32 ∨ ty = DataType.UInt32 ∨ ty = DataType.Int32) ∧
      (ty = DataType.Float64 ∨ ty = DataType.UInt64 ∨ ty = DataType.Int64)) := by
  have hall : ∀ p ∈ primPairs,
      (p.2 = 1 ∨ p.2 = 2 ∨ p.2 = 4 ∨ p.2 = 8) ∧
      (¬p.2 = 1 ∨
        p.1 = DataType.Boolean ∨ p.1 = DataType.UInt8 ∨ p.1 = DataType.Int8) ∧
      (¬p.2 = 2 ∨
        ¬(p.1 = DataType.Boolean ∨ p.1 = DataType.UInt8 ∨ p.1 = DataType.Int8) ∧
        (p.1 = DataType.Float16 ∨ p.1 = DataType.UInt16 ∨ p.1 = DataType.Int16)) ∧
      (¬p.2 = 4 ∨
        ¬(p.1 = DataType.Boolean ∨ p.1 = DataType.UInt8 ∨ p.1 = DataType.Int8) ∧
        ¬(p.1 = DataType.Float16 ∨ p.1 = DataType.UInt16 ∨ p.1 = DataType.Int16) ∧
        (p.1 = DataType.Float32 ∨ p.1 = DataType.UInt32 ∨ p.1 = DataType.Int32)) ∧
      (¬p.2 = 8 ∨
        ¬(p.1 = DataType.Boolean ∨ p.1 = DataType.UInt8 ∨ p.1 = DataType.Int8) ∧
        ¬(p.1 = DataType.Float16 ∨ p.1 = DataType.UInt16 ∨ p.1 = DataType.Int16) ∧
        ¬(p.1 = DataType.Float32 ∨ p.1 = DataType.UInt32 ∨ p.1 = DataType.Int32) ∧
        (p.1 = DataType.Float64 ∨ p.1 = DataType.UInt64 ∨ p.1 = DataType.Int64)) := by
    decide
  exact hall (ty, w) htw

theorem primEntryStep_inline (ty w : Nat) (htw : PrimTypeWidth ty w)
    (h : Endian) (buf : List Nat) (endPos p2 : Nat) :
    primEntryStep h buf endPos p2 ty =
      (tryReadData h buf endPos p2 w).map fun vp =>
        (CacheEntry.mk ty (CacheValue.vint vp.1), vp.2, buf) := by
  obtain ⟨hw, hg1, hg2, hg4, hg8⟩ := primGroupFacts ty w htw
  rcases hw with rfl | rfl | rfl | rfl
  · rw [primEntryStep, if_pos (hg1.resolve_left (fun hc => hc rfl))]
  · obtain ⟨hn1, hyes⟩ := hg2.resolve_left (fun hc => hc rfl)
    rw [primEntryStep, if_neg hn1, if_pos hyes]
  · obtain ⟨hn1, hn2, hyes⟩ := hg4.resolve_left (fun hc => hc rfl)
    rw [primEntryStep, if_neg hn1, if_neg hn2, if_pos hyes]
  · obtain ⟨hn1, hn2, hn3, hyes⟩ := hg8.resolve_left (fun hc => hc rfl)
    rw [primEntryStep, if_neg hn1, if_neg hn2, if_neg hn3, if_pos hyes]

/-- The single-field primitive round trip on a little-endian host in id
mode: write one primitive field of any of the twelve inline types,
`Finish` the root, decode, read back. -/
theorem primFieldRoundTrip (ty w : Nat) (htw : PrimTypeWidth ty w) (s : Bool)
    (id v : Nat) (hid : id < 2 ^ 16) (hv : v < 2 ^ (8 * w)) :
    readPrimitive
      (mkObjectReader Endian.little false
        ((objectFinish
            (writeDataNum s w v
              (writeFieldHeader (writerMk Endian.little false).1 ⟨id, []⟩ ty))
            (writerMk Endian.little false).2).1).buffer 0)
      ⟨id, []⟩ ty w = some v := by
  obtain ⟨hty256, hw1, hw8, hvalid, harr, hvec, hprim⟩ := primTypeFacts ty w htw
  have hmk : writerMk Endian.little false =
      (⟨Endian.little, false, [0, 0, 0, 0]⟩, ⟨0, false⟩) := rfl
  have hbuf : ((objectFinish
      (writeDataNum s w v
        (writeFieldHeader (writerMk Endian.little false).1 ⟨id, []⟩ ty))
      (writerMk Endian.little false).2).1).buffer =
      toLE 4 (3 + w) ++ ([ty % 256] ++ (toLE 2 id ++ toLE w v)) := by
    rw [hmk]
    rw [writeFieldHeader_id_little _ _ _ rfl rfl]
    rw [writeDataNum_little _ _ _ _ rfl]
    simp only [objectFinish, if_neg (by simp : ¬(ObjectWriter.mk 0 false).isFinished = true)]
    simp only [writeDataSizeField, patchBytes, hostMemBytes_adjust]
    simp only [List.length_append, List.length_cons, List.length_nil, length_toLE]
    norm_num
    congr 1
    omega
  rw [hbuf]
  set B := toLE 4 (3 + w) ++ ([ty % 256] ++ (toLE 2 id ++ toLE w v)) with hB
  have hs0 : slice B 0 4 = toLE 4 (3 + w) := by
    have := slice_pe [] (toLE 4 (3 + w)) ([ty % 256] ++ (toLE 2 id ++ toLE w v))
      0 4 rfl (by simp)
    simpa [hB] using this
  have hmsize : memRead Endian.little B 0 4 = 3 + w := by
    rw [memRead, if_pos rfl, hs0, fromLE_toLE_of_lt]
    have : w ≤ 8 := hw8
    norm_num
    omega
  have hs1 : slice B 4 1 = [ty % 256] := by
    have := slice_pe (toLE 4 (3 + w)) [ty % 256] (toLE 2 id ++ toLE w v)
      4 1 (by simp) rfl
    simpa [hB, List.append_assoc] using this
  have hs2 : slice B 5 2 = toLE 2 id := by
    have := slice_pe (toLE 4 (3 + w) ++ [ty % 256]) (toLE 2 id) (toLE w v)
      5 2 (by simp) (by simp)
    simpa [hB, List.append_assoc] using this
  have hs3 : slice B 7 w = toLE w v := by
    have := slice_pe (toLE 4 (3 + w) ++ ([ty % 256] ++ toLE 2 id)) (toLE w v) []
      7 w (by simp) (by simp)
    simpa [hB, List.append_assoc] using this
  have hid' : fromLE (toLE 2 id) = id := fromLE_toLE_of_lt (by rw [pow256]; exact hid)
  have hv' : fromLE (toLE w v) = v := fromLE_toLE_of_lt (by rw [pow256]; exact hv)
  have hacc1 : canAccessBuffer 4 (7 + w) 1 = true := by
    simp only [canAccessBuffer, decide_eq_true_eq]
    omega
  have ht1 : tryReadData Endian.little B (7 + w) 4 1 = some (ty, 5) := by
    rw [tryReadData, hacc1]
    simp [memRead, adjustEndianess, hs1, fromLE, Nat.mod_eq_of_lt hty256]
  have hacc2 : canAccessBuffer 5 (7 + w) 2 = true := by
    simp only [canAccessBuffer, decide_eq_true_eq]
    omega
  have hmr2 : memRead Endian.little B 5 2 = id := by
    rw [memRead, if_pos rfl, hs2, hid']
  have hacc3 : canAccessBuffer 7 (7 + w) w = true := by
    simp only [canAccessBuffer, decide_eq_true_eq]
    omega
  have ht3 : tryReadData Endian.little B (7 + w) 7 w = some (v, 7 + w) := by
    rw [tryReadData, hacc3]
    rw [show memRead Endian.little B 7 w = v by rw [memRead, if_pos rfl, hs3, hv']]
    simp [adjustEndianess]
  have hdisp : primEntryStep Endian.little B (7 + w) 7 ty =
      some (⟨ty, CacheValue.vint v⟩, 7 + w, B) := by
    rw [primEntryStep_inline ty w htw, ht3]
    rfl
  have hstep : walkStep Endian.little false (7 + w) ⟨B, 4, [], false⟩ =
      ⟨B, 7 + w, [(CacheKey.byId id, ⟨ty, CacheValue.vint v⟩)], false⟩ := by
    rw [walkStep]
    norm_num [ht1, hvalid, hacc2, hmr2, harr, hvec, hprim, hdisp,
      cacheEmplace, cacheFind]
  have hrun : runCreateCache Endian.little false B 0 =
      (true, ⟨B, 7 + w, [(CacheKey.byId id, ⟨ty, CacheValue.vint v⟩)], false⟩) := by
    rw [runCreateCache]
    rw [hmsize]
    rw [if_neg (by omega)]
    rw [show (0 : Nat) + 4 + (3 + w) = 7 + w by omega]
    rw [walkLoop_one_field _ _ _ _ _ (by omega) rfl (by show 4 < 7 + w; omega)
      (by rw [hstep])]
    rw [hstep]
    simp
  have hr : mkObjectReader Endian.little false B 0 =
      ⟨Endian.little, false, B, true,
        [(CacheKey.byId id, ⟨ty, CacheValue.vint v⟩)]⟩ := by
    rw [mkObjectReader, hrun]
  rw [hr]
  simp [readPrimitive, findTag, cacheFind, Nat.mod_eq_of_lt hv]

/-- The buffer produced by a fresh id-mode little-endian-host writer with
exactly one primitive field written by `field` and a finished root. -/
def primTrace1 (field : Writer → DataTag → Nat → Writer) (id v : Nat) :
    List Nat :=
  ((objectFinish (field (writerMk Endian.little false).1 ⟨id, []⟩ v)
      (writerMk Endian.little false).2).1).buffer

/-- The same single-field trace in name-based tag mode. -/
def primTraceN (field : Writer → DataTag → Nat → Writer) (tag : DataTag)
    (v : Nat) : List Nat :=
  ((objectFinish (field (writerMk Endian.little true).1 tag v)
      (writerMk Endian.little true).2).1).buffer

theorem writeFieldHeader_name_little (wr : Writer) (tag : DataTag) (ty : Nat)
    (hh : wr.host = Endian.little) (hnb : wr.nameBased = true) :
    writeFieldHeader wr tag ty =
      { wr with buffer := wr.buffer ++
          ([ty % 256] ++ ([tag.name.length % 256] ++ tag.name)) } := by
  unfold writeFieldHeader
  rw [writeDataNum_little _ _ _ _ hh]
  simp only [hnb, if_pos, writeDataNum_nameBased]
  rw [writeDataNum_little _ _ _ _ (by simpa using hh)]
  simp [writeDataRaw, show toLE 1 ty = [ty % 256] from rfl,
    show toLE 1 tag.name.length = [tag.name.length % 256] from rfl,
    List.append_assoc]

/-- The single-field primitive round trip on a little-endian host in name
mode: the analogue of `primFieldRoundTrip` with a name-based tag of any
valid length. -/
theorem primFieldRoundTripName (ty w : Nat) (htw : PrimTypeWidth ty w)
    (s : Bool) (tag : DataTag) (v : Nat) (hn1 : 1 ≤ tag.name.length)
    (hn255 : tag.name.length ≤ 255) (hv : v < 2 ^ (8 * w)) :
    readPrimitive
      (mkObjectReader Endian.little true
        ((objectFinish
            (writeDataNum s w v
              (writeFieldHeader (writerMk Endian.little true).1 tag ty))
            (writerMk Endian.little true).2).1).buffer 0)
      tag ty w = some v := by
  obtain ⟨hty256, hw1, hw8, hvalid, harr, hvec, hprim⟩ := primTypeFacts ty w htw
  set n := tag.name.length with hn
  have hnmod : tag.name.length % 256 = tag.name.length :=
    Nat.mod_eq_of_lt (by omega)
  have hmk : writerMk Endian.little true =
      (⟨Endian.little, true, [0, 0, 0, 0]⟩, ⟨0, false⟩) := rfl
  have hbuf : ((objectFinish
      (writeDataNum s w v
        (writeFieldHeader (writerMk Endian.little true).1 tag ty))
      (writerMk Endian.little true).2).1).buffer =
      toLE 4 (2 + n + w) ++
        ([ty % 256] ++ ([n] ++ (tag.name ++ toLE w v))) := by
    rw [hmk]
    rw [writeFieldHeader_name_little _ _ _ rfl rfl]
    rw [writeDataNum_little _ _ _ _ rfl]
    simp only [objectFinish, if_neg (by simp : ¬(ObjectWriter.mk 0 false).isFinished = true)]
    simp only [writeDataSizeField, patchBytes, hostMemBytes_adjust]
    simp only [List.length_append, List.length_cons, List.length_nil, length_toLE]
    norm_num [hnmod, ← hn]
    congr 1
    omega
  rw [hbuf]
  set B := toLE 4 (2 + n + w) ++ ([ty % 256] ++ ([n] ++ (tag.name ++ toLE w v)))
    with hB
  have hs0 : slice B 0 4 = toLE 4 (2 + n + w) := by
    have := slice_pe [] (toLE 4 (2 + n + w))
      ([ty % 256] ++ ([n] ++ (tag.name ++ toLE w v))) 0 4 rfl (by simp)
    simpa [hB] using this
  have hmsize : memRead Endian.little B 0 4 = 2 + n + w := by
    rw [memRead, if_pos rfl, hs0, fromLE_toLE_of_lt]
    norm_num
    omega
  have hs1 : slice B 4 1 = [ty % 256] := by
    have := slice_pe (toLE 4 (2 + n + w)) [ty % 256]
      ([n] ++ (tag.name ++ toLE w v)) 4 1 (by simp) rfl
    simpa [hB, List.append_assoc] using this
  have hs2 : slice B 5 1 = [n] := by
    have := slice_pe (toLE 4 (2 + n + w) ++ [ty % 256]) [n]
      (tag.name ++ toLE w v) 5 1 (by simp) rfl
    simpa [hB, List.append_assoc] using this
  have hs3 : slice B 6 n = tag.name := by
    have := slice_pe (toLE 4 (2 + n + w) ++ ([ty % 256] ++ [n])) tag.name
      (toLE w v) 6 n (by simp) hn.symm
    simpa [hB, List.append_assoc] using this
  have hs4 : slice B (6 + n) w = toLE w v := by
    have := slice_pe (toLE 4 (2 + n + w) ++ ([ty % 256] ++ ([n] ++ tag.name)))
      (toLE w v) [] (6 + n) w (by simp [hn]; omega) (by simp)
    simpa [hB, List.append_assoc] using this
  have hv' : fromLE (toLE w v) = v := fromLE_toLE_of_lt (by rw [pow256]; exact hv)
  have hacc1 : canAccessBuffer 4 (6 + n + w) 1 = true := by
    simp only [canAccessBuffer, decide_eq_true_eq]
    omega
  have ht1 : tryReadData Endian.little B (6 + n + w) 4 1 = some (ty, 5) := by
    rw [tryReadData, hacc1]
    simp [memRead, adjustEndianess, hs1, fromLE, Nat.mod_eq_of_lt hty256]
  have hacc2 : canAccessBuffer 5 (6 + n + w) 1 = true := by
    simp only [canAccessBuffer, decide_eq_true_eq]
    omega
  have ht2 : tryReadData Endian.little B (6 + n + w) 5 1 = some (n, 6) := by
    rw [tryReadData, hacc2]
    simp [memRead, adjustEndianess, hs2, fromLE]
  have hacc3 : canAccessBuffer 6 (6 + n + w) n = true := by
    simp only [canAccessBuffer, decide_eq_true_eq]
    omega
  have hacc4 : canAccessBuffer (6 + n) (6 + n + w) w = true := by
    simp only [canAccessBuffer, decide_eq_true_eq]
    omega
  have ht4 : tryReadData Endian.little B (6 + n + w) (6 + n) w =
      some (v, 6 + n + w) := by
    rw [tryReadData, hacc4]
    rw [show memRead Endian.little B (6 + n) w = v by
      rw [memRead, if_pos rfl, hs4, hv']]
    simp [adjustEndianess]
  have hdisp : primEntryStep Endian.little B (6 + n + w) (6 + n) ty =
      some (⟨ty, CacheValue.vint v⟩, 6 + n + w, B) := by
    rw [primEntryStep_inline ty w htw, ht4]
    rfl
  have hstep : walkStep Endian.little true (6 + n + w) ⟨B, 4, [], false⟩ =
      ⟨B, 6 + n + w, [(CacheKey.byName tag.name, ⟨ty, CacheValue.vint v⟩)],
        false⟩ := by
    rw [walkStep]
    norm_num [ht1, hvalid, ht2, hacc3, hs3, harr, hvec, hprim, hdisp,
      cacheEmplace, cacheFind]
  have hrun : runCreateCache Endian.little true B 0 =
      (true, ⟨B, 6 + n + w,
        [(CacheKey.byName tag.name, ⟨ty, CacheValue.vint v⟩)], false⟩) := by
    rw [runCreateCache]
    rw [hmsize]
    rw [if_neg (by omega)]
    rw [show (0 : Nat) + 4 + (2 + n + w) = 6 + n + w by omega]
    rw [walkLoop_one_field _ _ _ _ _ (by omega) rfl (by show 4 < 6 + n + w; omega)
      (by rw [hstep])]
    rw [hstep]
    simp
  have hr : mkObjectReader Endian.little true B 0 =
      ⟨Endian.little, true, B, true,
        [(CacheKey.byName tag.name, ⟨ty, CacheValue.vint v⟩)]⟩ := by
    rw [mkObjectReader, hrun]
  rw [hr]
  simp [readPrimitive, findTag, cacheFind, Nat.mod_eq_of_lt hv]

/-- C1: for every primitive value V of type T among Int8..Int64,
UInt8..UInt64, Boolean, Float16, Float32 and Float64, writing one field
with V through the corresponding `ObjectWriter::FieldT`, finishing the
writer, and reading the tag back with `ObjectReader::ReadT` over the
produced buffer yields V bit-exactly.  Values are bit patterns, so the
float cases cover every IEEE-754 pattern including plus and minus zero and
all NaN payloads, and the integer cases cover the full range including the
minimum and maximum two's-complement values.  Host: little-endian (the
platform whose behaviour matches the declared wire order).  The first
block covers id-based tags (any 16-bit id), the second name-based tags
(any name of valid length 1..255). -/
theorem c1_primitive_roundtrip :
    ((∀ id v : Nat, id < 2 ^ 16 → v < 2 ^ 8 →
      readInt8 (mkObjectReader Endian.little false (primTrace1 fieldInt8 id v) 0)
        ⟨id, []⟩ = some v) ∧
    (∀ id v : Nat, id < 2 ^ 16 → v < 2 ^ 16 →
      readInt16 (mkObjectReader Endian.little false (primTrace1 fieldInt16 id v) 0)
        ⟨id, []⟩ = some v) ∧
    (∀ id v : Nat, id < 2 ^ 16 → v < 2 ^ 32 →
      readInt32 (mkObjectReader Endian.little false (primTrace1 fieldInt32 id v) 0)
        ⟨id, []⟩ = some v) ∧
    (∀ id v : Nat, id < 2 ^ 16 → v < 2 ^ 64 →
      readInt64 (mkObjectReader Endian.little false (primTrace1 fieldInt64 id v) 0)
        ⟨id, []⟩ = some v) ∧
    (∀ id v : Nat, id < 2 ^ 16 → v < 2 ^ 8 →
      readUInt8 (mkObjectReader Endian.little false (primTrace1 fieldUInt8 id v) 0)
        ⟨id, []⟩ = some v) ∧
    (∀ id v : Nat, id < 2 ^ 16 → v < 2 ^ 16 →
      readUInt16 (mkObjectReader Endian.little false (primTrace1 fieldUInt16 id v) 0)
        ⟨id, []⟩ = some v) ∧
    (∀ id v : Nat, id < 2 ^ 16 → v < 2 ^ 32 →
      readUInt32 (mkObjectReader Endian.little false (primTrace1 fieldUInt32 id v) 0)
        ⟨id, []⟩ = some v) ∧
    (∀ id v : Nat, id < 2 ^ 16 → v < 2 ^ 64 →
      readUInt64 (mkObjectReader Endian.little false (primTrace1 fieldUInt64 id v) 0)
        ⟨id, []⟩ = some v) ∧
    (∀ (id : Nat) (b : Bool), id < 2 ^ 16 →
      readBoolean (mkObjectReader Endian.little false
        ((objectFinish (fieldBoolean (writerMk Endian.little false).1 ⟨id, []⟩ b)
            (writerMk Endian.little false).2).1).buffer 0)
        ⟨id, []⟩ = some (if b then 1 else 0)) ∧
    (∀ id v : Nat, id < 2 ^ 16 → v < 2 ^ 16 →
      readFloat16 (mkObjectReader Endian.little false (primTrace1 fieldFloat16 id v) 0)
        ⟨id, []⟩ = some v) ∧
    (∀ id v : Nat, id < 2 ^ 16 → v < 2 ^ 32 →
      readFloat32 (mkObjectReader Endian.little false (primTrace1 fieldFloat32 id v) 0)
        ⟨id, []⟩ = some v) ∧
    (∀ id v : Nat, id < 2 ^ 16 → v < 2 ^ 64 →
      readFloat64 (mkObjectReader Endian.little false (primTrace1 fieldFloat64 id v) 0)
        ⟨id, []⟩ = some v)) ∧
    ((∀ (tag : DataTag) (v : Nat), 1 ≤ tag.name.length → tag.name.length ≤ 255 →
        v < 2 ^ 8 →
      readInt8 (mkObjectReader Endian.little true (primTraceN fieldInt8 tag v) 0)
        tag = some v) ∧
    (∀ (tag : DataTag) (v : Nat), 1 ≤ tag.name.length → tag.name.length ≤ 255 →
        v < 2 ^ 16 →
      readInt16 (mkObjectReader Endian.little true (primTraceN fieldInt16 tag v) 0)
        tag = some v) ∧
    (∀ (tag : DataTag) (v : Nat), 1 ≤ tag.name.length → tag.name.length ≤ 255 →
        v < 2 ^ 32 →
      readInt32 (mkObjectReader Endian.little true (primTraceN fieldInt32 tag v) 0)
        tag = some v) ∧
    (∀ (tag : DataTag) (v : Nat), 1 ≤ tag.name.length → tag.name.length ≤ 255 →
        v < 2 ^ 64 →
      readInt64 (mkObjectReader Endian.little true (primTraceN fieldInt64 tag v) 0)
        tag = some v) ∧
    (∀ (tag : DataTag) (v : Nat), 1 ≤ tag.name.length → tag.name.length ≤ 255 →
        v < 2 ^ 8 →
      readUInt8 (mkObjectReader Endian.little true (primTraceN fieldUInt8 tag v) 0)
        tag = some v) ∧
    (∀ (tag : DataTag) (v : Nat), 1 ≤ tag.name.length → tag.name.length ≤ 255 →
        v < 2 ^ 16 →
      readUInt16 (mkObjectReader Endian.little true (primTraceN fieldUInt16 tag v) 0)
        tag = some v) ∧
    (∀ (tag : DataTag) (v : Nat), 1 ≤ tag.name.length → tag.name.length ≤ 255 →
        v < 2 ^ 32 →
      readUInt32 (mkObjectReader Endian.little true (primTraceN fieldUInt32 tag v) 0)
        tag = some v) ∧
    (∀ (tag : DataTag) (v : Nat), 1 ≤ tag.name.length → tag.name.length ≤ 255 →
        v < 2 ^ 64 →
      readUInt64 (mkObjectReader Endian.little true (primTraceN fieldUInt64 tag v) 0)
        tag = some v) ∧
    (∀ (tag : DataTag) (b : Bool), 1 ≤ tag.name.length → tag.name.length ≤ 255 →
      readBoolean (mkObjectReader Endian.little true
        ((objectFinish (fieldBoolean (writerMk Endian.little true).1 tag b)
            (writerMk Endian.little true).2).1).buffer 0)
        tag = some (if b then 1 else 0)) ∧
    (∀ (tag : DataTag) (v : Nat), 1 ≤ tag.name.length → tag.name.length ≤ 255 →
        v < 2 ^ 16 →
      readFloat16 (mkObjectReader Endian.little true (primTraceN fieldFloat16 tag v) 0)
        tag = some v) ∧
    (∀ (tag : DataTag) (v : Nat), 1 ≤ tag.name.length → tag.name.length ≤ 255 →
        v < 2 ^ 32 →
      readFloat32 (mkObjectReader Endian.little true (primTraceN fieldFloat32 tag v) 0)
        tag = some v) ∧
    (∀ (tag : DataTag) (v : Nat), 1 ≤ tag.name.length → tag.name.length ≤ 255 →
        v < 2 ^ 64 →
      readFloat64 (mkObjectReader Endian.little true (primTraceN fieldFloat64 tag v) 0)
        tag = some v)) := by
  refine ⟨⟨?_, ?_, ?_, ?_, ?_, ?_, ?_, ?_, ?_, ?_, ?_, ?_⟩,
    ⟨?_, ?_, ?_, ?_, ?_, ?_, ?_, ?_, ?_, ?_, ?_, ?_⟩⟩
  · exact fun id v hid hv =>
      primFieldRoundTrip DataType.Int8 1 (by decide) true id v hid hv
  · exact fun id v hid hv =>
      primFieldRoundTrip DataType.Int16 2 (by decide) true id v hid hv
  · exact fun id v hid hv =>
      primFieldRoundTrip DataType.Int32 4 (by decide) true id v hid hv
  · exact fun id v hid hv =>
      primFieldRoundTrip DataType.Int64 8 (by decide) true id v hid hv
  · exact fun id v hid hv =>
      primFieldRoundTrip DataType.UInt8 1 (by decide) true id v hid hv
  · exact fun id v hid hv =>
      primFieldRoundTrip DataType.UInt16 2 (by decide) true id v hid hv
  · exact fun id v hid hv =>
      primFieldRoundTrip DataType.UInt32 4 (by decide) true id v hid hv
  · exact fun id v hid hv =>
      primFieldRoundTrip DataType.UInt64 8 (by decide) true id v hid hv
  · exact fun id b hid =>
      primFieldRoundTrip DataType.Boolean 1 (by decide) true id
        (if b then 1 else 0) hid (by cases b <;> norm_num)
  · exact fun id v hid hv =>
      primFieldRoundTrip DataType.Float16 2 (by decide) false id v hid hv
  · exact fun id v hid hv =>
      primFieldRoundTrip DataType.Float32 4 (by decide) false id v hid hv
  · exact fun id v hid hv =>
      primFieldRoundTrip DataType.Float64 8 (by decide) false id v hid hv
  · exact fun tag v h1 h2 hv =>
      primFieldRoundTripName DataType.Int8 1 (by decide) true tag v h1 h2 hv
  · exact fun tag v h1 h2 hv =>
      primFieldRoundTripName DataType.Int16 2 (by decide) true tag v h1 h2 hv
  · exact fun tag v h1 h2 hv =>
      primFieldRoundTripName DataType.Int32 4 (by decide) true tag v h1 h2 hv
  · exact fun tag v h1 h2 hv =>
      primFieldRoundTripName DataType.Int64 8 (by decide) true tag v h1 h2 hv
  · exact fun tag v h1 h2 hv =>
      primFieldRoundTripName DataType.UInt8 1 (by decide) true tag v h1 h2 hv
  · exact fun tag v h1 h2 hv =>
      primFieldRoundTripName DataType.UInt16 2 (by decide) true tag v h1 h2 hv
  · exact fun tag v h1 h2 hv =>
      primFieldRoundTripName DataType.UInt32 4 (by decide) true tag v h1 h2 hv
  · exact fun tag v h1 h2 hv =>
      primFieldRoundTripName DataType.UInt64 8 (by decide) true tag v h1 h2 hv
  · exact fun tag b h1 h2 =>
      primFieldRoundTripName DataType.Boolean 1 (by decide) true tag
        (if b then 1 else 0) h1 h2 (by cases b <;> norm_num)
  · exact fun tag v h1 h2 hv =>
      primFieldRoundTripName DataType.Float16 2 (by decide) false tag v h1 h2 hv
  · exact fun tag v h1 h2 hv =>
      primFieldRoundTripName DataType.Float32 4 (by decide) false tag v h1 h2 hv
  · exact fun tag v h1 h2 hv =>
      primFieldRoundTripName DataType.Float64 8 (by decide) false tag v h1 h2 hv

/-- C1 witness: the round trip evaluated at concrete inputs — an `Int32`
bit pattern `0xDEADBEEF` under tag id 1, a `Float64` NaN bit pattern
`0x7FF8000000000001` under tag id 2, and a name-mode `UInt16` value
`0xBEEF` under tag name "foo". -/
theorem c1_primitive_roundtrip_witness :
    readInt32 (mkObjectReader Endian.little false
      (primTrace1 fieldInt32 1 0xDEADBEEF) 0) ⟨1, []⟩ = some 0xDEADBEEF ∧
    readFloat64 (mkObjectReader Endian.little false
      (primTrace1 fieldFloat64 2 0x7FF8000000000001) 0) ⟨2, []⟩ =
        some 0x7FF8000000000001 ∧
    readUInt16 (mkObjectReader Endian.little true
      (primTraceN fieldUInt16 ⟨0, [102, 111, 111]⟩ 0xBEEF) 0)
      ⟨0, [102, 111, 111]⟩ = some 0xBEEF :=
  ⟨c1_primitive_roundtrip.1.2.2.1 1 0xDEADBEEF (by norm_num) (by norm_num),
   (c1_primitive_roundtrip.1.2.2.2.2.2.2.2.2.2.2.2) 2 0x7FF8000000000001
     (by norm_num) (by norm_num),
   c1_primitive_roundtrip.2.2.2.2.2.2.1 ⟨0, [102, 111, 111]⟩ 0xBEEF
     (by norm_num) (by norm_num) (by norm_num)⟩

/-! ## Duplicate tags (C2) -/

/-- A `walkStep` over one `Int32` field at an arbitrary cursor position:
the generic building block for multi-field walks. -/
theorem walkStep_int32 (id v : Nat) (hid : id < 2 ^ 16) (hv : v < 2 ^ 32)
    (buf : List Nat) (endPos pos : Nat)
    (cache : List (CacheKey × CacheEntry))
    (h1 : slice buf pos 1 = [2]) (h2 : slice buf (pos + 1) 2 = toLE 2 id)
    (h3 : slice buf (pos + 3) 4 = toLE 4 v) (hend : pos + 7 ≤ endPos) :
    walkStep Endian.little false endPos ⟨buf, pos, cache, false⟩ =
      ⟨buf, pos + 7,
        cacheEmplace cache (CacheKey.byId id) ⟨2, CacheValue.vint v⟩,
        false⟩ := by
  have hid' : fromLE (toLE 2 id) = id := fromLE_toLE_of_lt (by rw [pow256]; exact hid)
  have hv' : fromLE (toLE 4 v) = v := fromLE_toLE_of_lt (by rw [pow256]; exact hv)
  have hacc1 : canAccessBuffer pos endPos 1 = true := by
    simp only [canAccessBuffer, decide_eq_true_eq]
    omega
  have ht1 : tryReadData Endian.little buf endPos pos 1 = some (2, pos + 1) := by
    rw [tryReadData, hacc1]
    simp [memRead, adjustEndianess, h1, fromLE]
  have hacc2 : canAccessBuffer (pos + 1) endPos 2 = true := by
    simp only [canAccessBuffer, decide_eq_true_eq]
    omega
  have hmr2 : memRead Endian.little buf (pos + 1) 2 = id := by
    rw [memRead, if_pos rfl, h2, hid']
  have hacc3 : canAccessBuffer (pos + 3) endPos 4 = true := by
    simp only [canAccessBuffer, decide_eq_true_eq]
    omega
  have ht3 : tryReadData Endian.little buf endPos (pos + 1 + 2) 4 =
      some (v, pos + 7) := by
    rw [show pos + 1 + 2 = pos + 3 by omega, tryReadData, hacc3]
    rw [show memRead Endian.little buf (pos + 3) 4 = v by
      rw [memRead, if_pos rfl, h3, hv']]
    simp [adjustEndianess]
  have hdisp : primEntryStep Endian.little buf endPos (pos + 1 + 2) 2 =
      some (⟨2, CacheValue.vint v⟩, pos + 7, buf) := by
    rw [primEntryStep_inline 2 4 (by decide), ht3]
    rfl
  rw [walkStep]
  norm_num [ht1, hmr2, hacc2, hdisp,
    (by decide : IsValidDataType 2 = true), (by decide : IsArrayType 2 = false),
    (by decide : IsVectorType 2 = false), (by decide : IsPrimitiveType 2 = true)]
  omega

/-- The buffer of an id-mode writer that wrote the same tag twice with
`FieldInt32` values `v1` then `v2`, root finished. -/
def dupTrace (id v1 v2 : Nat) : List Nat :=
  ((objectFinish
      (fieldInt32 (fieldInt32 (writerMk Endian.little false).1 ⟨id, []⟩ v1)
        ⟨id, []⟩ v2)
      (writerMk Endian.little false).2).1).buffer

/-- C2 counterexample: with the same tag id 1 written twice (`7` then
`9`), the decoder returns the FIRST occurrence, `7`, not the last-written
`9` — `std::unordered_map::emplace` does not overwrite an existing key, so
duplicate index insertions are ignored rather than last-write-wins. -/
theorem c2_duplicate_tags_counterexample :
    readInt32 (mkObjectReader Endian.little false (dupTrace 1 7 9) 0) ⟨1, []⟩ =
        some 7 ∧
    readInt32 (mkObjectReader Endian.little false (dupTrace 1 7 9) 0) ⟨1, []⟩ ≠
        some 9 := by
  constructor
  · decide
  · decide

/-- C2 amended: if the same tag is written in two fields of one object,
every read of that tag observes the FIRST-written occurrence: a duplicate
key insertion into the index is ignored (`emplace` keeps the existing
entry), so lookup is first-write-wins. -/
theorem c2_duplicate_tags_first_wins (id v1 v2 : Nat) (hid : id < 2 ^ 16)
    (hv1 : v1 < 2 ^ 32) (hv2 : v2 < 2 ^ 32) :
    readInt32 (mkObjectReader Endian.little false (dupTrace id v1 v2) 0)
      ⟨id, []⟩ = some v1 := by
  have hbuf : dupTrace id v1 v2 =
      toLE 4 14 ++ ([2] ++ (toLE 2 id ++ (toLE 4 v1 ++
        ([2] ++ (toLE 2 id ++ toLE 4 v2))))) := by
    unfold dupTrace
    rw [show writerMk Endian.little false =
      (⟨Endian.little, false, [0, 0, 0, 0]⟩, ⟨0, false⟩) from rfl]
    unfold fieldInt32
    rw [writeFieldHeader_id_little _ _ _ rfl rfl]
    rw [writeDataNum_little _ _ _ _ rfl]
    rw [writeFieldHeader_id_little _ _ _ rfl rfl]
    rw [writeDataNum_little _ _ _ _ rfl]
    simp only [objectFinish, if_neg (by simp : ¬(ObjectWriter.mk 0 false).isFinished = true)]
    simp only [writeDataSizeField, patchBytes, hostMemBytes_adjust]
    simp only [List.length_append, List.length_cons, List.length_nil, length_toLE]
    norm_num [DataType.Int32, List.append_assoc]
  rw [hbuf]
  set B := toLE 4 14 ++ ([2] ++ (toLE 2 id ++ (toLE 4 v1 ++
    ([2] ++ (toLE 2 id ++ toLE 4 v2))))) with hB
  have hs0 : slice B 0 4 = toLE 4 14 := by
    have := slice_pe [] (toLE 4 14)
      ([2] ++ (toLE 2 id ++ (toLE 4 v1 ++ ([2] ++ (toLE 2 id ++ toLE 4 v2)))))
      0 4 rfl (by simp)
    simpa [hB] using this
  have hmsize : memRead Endian.little B 0 4 = 14 := by
    rw [memRead, if_pos rfl, hs0, fromLE_toLE_of_lt (by norm_num)]
  have ha1 : slice B 4 1 = [2] := by
    have := slice_pe (toLE 4 14) [2]
      (toLE 2 id ++ (toLE 4 v1 ++ ([2] ++ (toLE 2 id ++ toLE 4 v2))))
      4 1 (by simp) rfl
    simpa [hB, List.append_assoc] using this
  have ha2 : slice B 5 2 = toLE 2 id := by
    have := slice_pe (toLE 4 14 ++ [2]) (toLE 2 id)
      (toLE 4 v1 ++ ([2] ++ (toLE 2 id ++ toLE 4 v2)))
      5 2 (by simp) (by simp)
    simpa [hB, List.append_assoc] using this
  have ha3 : slice B 7 4 = toLE 4 v1 := by
    have := slice_pe (toLE 4 14 ++ ([2] ++ toLE 2 id)) (toLE 4 v1)
      ([2] ++ (toLE 2 id ++ toLE 4 v2))
      7 4 (by simp) (by simp)
    simpa [hB, List.append_assoc] using this
  have hb1 : slice B 11 1 = [2] := by
    have := slice_pe (toLE 4 14 ++ ([2] ++ (toLE 2 id ++ toLE 4 v1))) [2]
      (toLE 2 id ++ toLE 4 v2) 11 1 (by simp) rfl
    simpa [hB, List.append_assoc] using this
  have hb2 : slice B 12 2 = toLE 2 id := by
    have := slice_pe (toLE 4 14 ++ ([2] ++ (toLE 2 id ++ (toLE 4 v1 ++ [2]))))
      (toLE 2 id) (toLE 4 v2) 12 2 (by simp) (by simp)
    simpa [hB, List.append_assoc] using this
  have hb3 : slice B 14 4 = toLE 4 v2 := by
    have := slice_pe
      (toLE 4 14 ++ ([2] ++ (toLE 2 id ++ (toLE 4 v1 ++ ([2] ++ toLE 2 id)))))
      (toLE 4 v2) [] 14 4 (by simp) (by simp)
    simpa [hB, List.append_assoc] using this
  have hstep1 := walkStep_int32 id v1 hid hv1 B 18 4 [] ha1
    (by simpa using ha2) (by simpa using ha3) (by omega)
  have hstep2 := walkStep_int32 id v2 hid hv2 B 18 11
    (cacheEmplace [] (CacheKey.byId id) ⟨2, CacheValue.vint v1⟩)
    hb1 (by simpa using hb2) (by simpa using hb3) (by omega)
  have hrun : runCreateCache Endian.little false B 0 =
      (true, ⟨B, 18, [(CacheKey.byId id, ⟨2, CacheValue.vint v1⟩)], false⟩) := by
    rw [runCreateCache, hmsize, if_neg (by omega)]
    rw [show (0 : Nat) + 4 + 14 = 18 by omega]
    rw [show (14 : Nat) + 1 = 14 + 1 from rfl]
    rw [walkLoop_advance _ _ _ _ _ rfl (by show 4 < 18; omega)]
    rw [hstep1]
    rw [show (4 : Nat) + 7 = 11 by omega]
    rw [show (14 : Nat) = 13 + 1 from rfl]
    rw [walkLoop_advance _ _ _ _ _ (by simp [cacheEmplace]) (by show 11 < 18; omega)]
    rw [show (⟨B, 11, cacheEmplace [] (CacheKey.byId id) ⟨2, CacheValue.vint v1⟩,
        false⟩ : WalkState) =
      ⟨B, 11, cacheEmplace [] (CacheKey.byId id) ⟨2, CacheValue.vint v1⟩, false⟩ from rfl]
    rw [hstep2]
    rw [walkLoop_exit _ _ _ _ _ (Or.inr (by simp))]
    simp [cacheEmplace, cacheFind]
  have hr : mkObjectReader Endian.little false B 0 =
      ⟨Endian.little, false, B, true,
        [(CacheKey.byId id, ⟨2, CacheValue.vint v1⟩)]⟩ := by
    rw [mkObjectReader, hrun]
  rw [hr]
  simp [readInt32, readPrimitive, findTag, cacheFind, DataType.Int32,
    Nat.mod_eq_of_lt hv1]
  exact lt_of_lt_of_le hv1 (by norm_num)

/-- C2 amended witness: the first-write-wins read at concrete inputs. -/
theorem c2_duplicate_tags_first_wins_witness :
    readInt32 (mkObjectReader Endian.little false (dupTrace 3 1000 2000) 0)
      ⟨3, []⟩ = some 1000 :=
  c2_duplicate_tags_first_wins 3 1000 2000 (by norm_num) (by norm_num)
    (by norm_num)

/-! ## Invalid objects (C7, C10) -/

@[simp] theorem mkObjectReader_valid (h : Endian) (nb : Bool) (buf : List Nat)
    (off : Nat) :
    (mkObjectReader h nb buf off).valid = (runCreateCache h nb buf off).1 := rfl

@[simp] theorem mkObjectReader_host (h : Endian) (nb : Bool) (buf : List Nat)
    (off : Nat) : (mkObjectReader h nb buf off).host = h := rfl

@[simp] theorem mkObjectReader_nameBased (h : Endian) (nb : Bool)
    (buf : List Nat) (off : Nat) :
    (mkObjectReader h nb buf off).nameBased = nb := rfl

/-- Every read operation of the decoder yields nothing for the given tag:
the typed primitive reads, the pointer-data reads, the sub-object read,
the vector and fixed-array reads of every expected type, the three
variable-element array reads, and the `contains`/`type_of` queries. -/
abbrev AllReadsNone (r : RObj) (tag : DataTag) : Prop :=
  readInt8 r tag = none ∧ readInt16 r tag = none ∧ readInt32 r tag = none ∧
  readInt64 r tag = none ∧ readUInt8 r tag = none ∧ readUInt16 r tag = none ∧
  readUInt32 r tag = none ∧ readUInt64 r tag = none ∧
  readBoolean r tag = none ∧ readFloat16 r tag = none ∧
  readFloat32 r tag = none ∧ readFloat64 r tag = none ∧
  readString r tag = none ∧ readBinary r tag = none ∧
  readUUID r tag = none ∧ readObject r tag = none ∧
  (∀ vt, readVector r tag vt = none) ∧ (∀ ety, readArray r tag ety = none) ∧
  readStringArray r tag = none ∧ readBinaryArray r tag = none ∧
  readObjectArray r tag = none ∧ containsTag r tag = false ∧
  getTagType r tag = none

theorem findTag_none_of_invalid (r : RObj) (hv : r.valid = false)
    (tag : DataTag) : findTag r tag = none := by
  simp [findTag, hv]

theorem allReadsNone_of_invalid (r : RObj) (hv : r.valid = false)
    (tag : DataTag) : AllReadsNone r tag := by
  have hft := findTag_none_of_invalid r hv tag
  refine ⟨?_, ?_, ?_, ?_, ?_, ?_, ?_, ?_, ?_, ?_, ?_, ?_, ?_, ?_, ?_, ?_,
    ?_, ?_, ?_, ?_, ?_, ?_, ?_⟩ <;>
    first
      | simp [readInt8, readInt16, readInt32, readInt64, readUInt8,
          readUInt16, readUInt32, readUInt64, readBoolean, readFloat16,
          readFloat32, readFloat64, readPrimitive, hft]
      | simp [readString, readBinary, readUUID, readObject, readPointerData,
          hft]
      | (intro x
         simp [readVector, readArray, readPointerData, hft])
      | simp [readStringArray, readBinaryArray, readObjectArray, hft]
      | simp [containsTag, getTagType, hft]

theorem runCreateCache_valid_iff (h : Endian) (nb : Bool) (buf : List Nat)
    (off : Nat) :
    (runCreateCache h nb buf off).1 = true ↔
      memRead h buf off 4 ≠ 0 ∧
        (runCreateCache h nb buf off).2.errors = false ∧
        (runCreateCache h nb buf off).2.pos = off + 4 + memRead h buf off 4 := by
  rw [runCreateCache]
  by_cases h0 : memRead h buf off 4 = 0
  · simp [h0]
  · simp [h0, Bool.and_eq_true, beq_iff_eq]

/-- C7: if the decoder's validation pass over an object's field region
raises its `errors` flag (out-of-bounds read or invalid type byte) or
finishes with the cursor not exactly at the region end, then the object is
invalid (`IsValid()` is false) and every subsequent read of any tag
returns none — the partially built index is unreachable. -/
theorem c7_structural_errors_invalidate (h : Endian) (nb : Bool)
    (buf : List Nat) (off : Nat)
    (hpre : (runCreateCache h nb buf off).2.errors = true ∨
      (runCreateCache h nb buf off).2.pos ≠ off + 4 + memRead h buf off 4) :
    (mkObjectReader h nb buf off).valid = false ∧
      ∀ tag, AllReadsNone (mkObjectReader h nb buf off) tag := by
  have hv : (mkObjectReader h nb buf off).valid = false := by
    rw [mkObjectReader_valid]
    apply eq_false_of_ne_true
    intro htrue
    obtain ⟨-, he, hp⟩ := (runCreateCache_valid_iff h nb buf off).mp htrue
    rcases hpre with h1 | h1
    · rw [he] at h1
      exact Bool.false_ne_true h1
    · exact h1 hp
  exact ⟨hv, fun tag => allReadsNone_of_invalid _ hv tag⟩

/-- C7 witness: a one-byte field region holding the invalid type byte
`0xFF` trips the validation pass; the object is invalid and a
representative read returns none. -/
theorem c7_structural_errors_invalidate_witness :
    (mkObjectReader Endian.little true [1, 0, 0, 0, 255] 0).valid = false ∧
    readInt32 (mkObjectReader Endian.little true [1, 0, 0, 0, 255] 0)
      ⟨1, [97]⟩ = none :=
  ⟨(c7_structural_errors_invalidate Endian.little true [1, 0, 0, 0, 255] 0
      (by decide)).1,
   ((c7_structural_errors_invalidate Endian.little true [1, 0, 0, 0, 255] 0
      (by decide)).2 ⟨1, [97]⟩).2.2.1⟩

/-- C10: an object whose size field is 0 — in particular the buffer a
fresh writer produces when `Finish()` is called with no field operations,
which is exactly the four zero bytes `[0,0,0,0]` on either host and in
either tag mode — is reported invalid by the reader (`CreateCache`
refuses `m_size == 0`), and every read on it returns none. -/
theorem c10_empty_object_invalid :
    (∀ (h : Endian) (nb : Bool),
      ((objectFinish (writerMk h nb).1 (writerMk h nb).2).1).buffer =
        [0, 0, 0, 0]) ∧
    (∀ (h : Endian) (nb : Bool) (buf : List Nat) (off : Nat),
      memRead h buf off 4 = 0 →
      (mkObjectReader h nb buf off).valid = false ∧
        ∀ tag, AllReadsNone (mkObjectReader h nb buf off) tag) := by
  constructor
  · intro h nb
    have hmk : writerMk h nb = (⟨h, nb, [0, 0, 0, 0]⟩, ⟨0, false⟩) := rfl
    rw [hmk]
    simp only [objectFinish,
      if_neg (by simp : ¬(ObjectWriter.mk 0 false).isFinished = true)]
    simp only [writeDataSizeField, patchBytes, hostMemBytes_adjust]
    norm_num [toLE, slice]
  · intro h nb buf off h0
    have hv : (mkObjectReader h nb buf off).valid = false := by
      rw [mkObjectReader_valid, runCreateCache]
      simp [h0]
    exact ⟨hv, fun tag => allReadsNone_of_invalid _ hv tag⟩

/-- C10 witness: the buffer of a writer finished with no fields is
`[0,0,0,0]`, the reader over it is invalid, and a representative read
returns none. -/
theorem c10_empty_object_invalid_witness :
    ((objectFinish (writerMk Endian.little true).1
        (writerMk Endian.little true).2).1).buffer = [0, 0, 0, 0] ∧
    (mkObjectReader Endian.little true [0, 0, 0, 0] 0).valid = false ∧
    readString (mkObjectReader Endian.little true [0, 0, 0, 0] 0)
      ⟨1, [97]⟩ = none :=
  ⟨c10_empty_object_invalid.1 Endian.little true,
   (c10_empty_object_invalid.2 Endian.little true [0, 0, 0, 0] 0 (by decide)).1,
   ((c10_empty_object_invalid.2 Endian.little true [0, 0, 0, 0] 0
      (by decide)).2 ⟨1, [97]⟩).2.2.2.2.2.2.2.2.2.2.2.2.1⟩

/-! ## Type mismatches (C8) -/

/-- C8: on any decoder object, if a tag is present in the index with
stored type U, then every typed read expecting a different type T returns
none — each reader compares the cache entry's type byte with its expected
type before touching any payload — while the tag itself remains present
(`ContainsTag` is true), so the failure is type-level, not tag-level.
Reads are pure functions of the decoder state, so a mismatched read
cannot affect any other read. -/
theorem c8_type_mismatch_returns_none (r : RObj) (tag : DataTag) (U : Nat)
    (hU : getTagType r tag = some U) :
    containsTag r tag = true ∧
    (U ≠ DataType.Int8 → readInt8 r tag = none) ∧
    (U ≠ DataType.Int16 → readInt16 r tag = none) ∧
    (U ≠ DataType.Int32 → readInt32 r tag = none) ∧
    (U ≠ DataType.Int64 → readInt64 r tag = none) ∧
    (U ≠ DataType.UInt8 → readUInt8 r tag = none) ∧
    (U ≠ DataType.UInt16 → readUInt16 r tag = none) ∧
    (U ≠ DataType.UInt32 → readUInt32 r tag = none) ∧
    (U ≠ DataType.UInt64 → readUInt64 r tag = none) ∧
    (U ≠ DataType.Boolean → readBoolean r tag = none) ∧
    (U ≠ DataType.Float16 → readFloat16 r tag = none) ∧
    (U ≠ DataType.Float32 → readFloat32 r tag = none) ∧
    (U ≠ DataType.Float64 → readFloat64 r tag = none) ∧
    (U ≠ DataType.String → readString r tag = none) ∧
    (U ≠ DataType.Binary → readBinary r tag = none) ∧
    (U ≠ DataType.UUID → readUUID r tag = none) ∧
    (U ≠ DataType.Object → readObject r tag = none) ∧
    (∀ vt, U ≠ vt → readVector r tag vt = none) ∧
    (∀ ety, U ≠ ety → readArray r tag ety = none) ∧
    (U ≠ DataType.StringArray → readStringArray r tag = none) ∧
    (U ≠ DataType.BinaryArray → readBinaryArray r tag = none) ∧
    (U ≠ DataType.ObjectArray → readObjectArray r tag = none) := by
  obtain ⟨e, hfind, htype⟩ : ∃ e, findTag r tag = some e ∧ e.type = U := by
    unfold getTagType at hU
    cases hf : findTag r tag with
    | none => rw [hf] at hU; simp at hU
    | some e =>
      rw [hf] at hU
      simp at hU
      exact ⟨e, rfl, hU⟩
  subst htype
  have hprim : ∀ T wd, e.type ≠ T → readPrimitive r tag T wd = none := by
    intro T wd hne
    simp [readPrimitive, hfind, hne]
  exact ⟨by simp [containsTag, hfind],
    fun hne => hprim _ 1 hne, fun hne => hprim _ 2 hne,
    fun hne => hprim _ 4 hne, fun hne => hprim _ 8 hne,
    fun hne => hprim _ 1 hne, fun hne => hprim _ 2 hne,
    fun hne => hprim _ 4 hne, fun hne => hprim _ 8 hne,
    fun hne => hprim _ 1 hne, fun hne => hprim _ 2 hne,
    fun hne => hprim _ 4 hne, fun hne => hprim _ 8 hne,
    fun hne => by simp [readString, hfind, hne],
    fun hne => by simp [readBinary, readPointerData, hfind, hne],
    fun hne => by simp [readUUID, hfind, hne],
    fun hne => by simp [readObject, hfind, hne],
    fun vt hne => by simp [readVector, hfind, hne],
    fun ety hne => by simp [readArray, readPointerData, hfind, hne],
    fun hne => by simp [readStringArray, hfind, hne],
    fun hne => by simp [readBinaryArray, hfind, hne],
    fun hne => by simp [readObjectArray, hfind, hne]⟩

/-- C8 witness: an object holding one `Int32` field under tag id 1; the
tag's stored type is `Int32`, and reads expecting `Int16`, `Float32`,
`String`, or an `Int32Array` all return none while `ContainsTag` is
true. -/
theorem c8_type_mismatch_returns_none_witness :
    containsTag (mkObjectReader Endian.little false
      (primTrace1 fieldInt32 1 5) 0) ⟨1, []⟩ = true ∧
    readInt16 (mkObjectReader Endian.little false
      (primTrace1 fieldInt32 1 5) 0) ⟨1, []⟩ = none ∧
    readFloat32 (mkObjectReader Endian.little false
      (primTrace1 fieldInt32 1 5) 0) ⟨1, []⟩ = none ∧
    readString (mkObjectReader Endian.little false
      (primTrace1 fieldInt32 1 5) 0) ⟨1, []⟩ = none :=
  ⟨(c8_type_mismatch_returns_none _ _ DataType.Int32 (by decide)).1,
   (c8_type_mismatch_returns_none _ _ DataType.Int32 (by decide)).2.2.1
     (by decide),
   (c8_type_mismatch_returns_none _ _ DataType.Int32 (by decide)).2.2.2.2.2.2.2.2.2.2.2.1
     (by decide),
   (c8_type_mismatch_returns_none _ _ DataType.Int32 (by decide)).2.2.2.2.2.2.2.2.2.2.2.2.2.1
     (by decide)⟩

/-! ## Field-operation sequences and the size law (C6)

A `FieldOp` is one complete encoder operation: a field method call, or an
opened scope together with everything written inside it and its `Finish`.
Running a list of them models any LIFO-disciplined use of the encoder
(inner scopes finished before the parent is used again). -/

inductive FieldOp where
  | opInt8 (tag : DataTag) (v : Nat)
  | opInt16 (tag : DataTag) (v : Nat)
  | opInt32 (tag : DataTag) (v : Nat)
  | opInt64 (tag : DataTag) (v : Nat)
  | opUInt8 (tag : DataTag) (v : Nat)
  | opUInt16 (tag : DataTag) (v : Nat)
  | opUInt32 (tag : DataTag) (v : Nat)
  | opUInt64 (tag : DataTag) (v : Nat)
  | opBoolean (tag : DataTag) (v : Bool)
  | opFloat16 (tag : DataTag) (v : Nat)
  | opFloat32 (tag : DataTag) (v : Nat)
  | opFloat64 (tag : DataTag) (v : Nat)
  | opString (tag : DataTag) (s : List Nat)
  | opBinary (tag : DataTag) (d : List Nat)
  | opFixedArray (tag : DataTag) (arrayType width : Nat) (vals : List Nat)
  | opStringArray (tag : DataTag) (elems : List (List Nat))
  | opBinaryArray (tag : DataTag) (elems : List (List Nat))
  | opObject (tag : DataTag) (ops : List FieldOp)
  | opObjectArray (tag : DataTag) (elems : List (List FieldOp))

mutual

/-- Execute one field operation on the writer, scopes closed by their
`Finish`. -/
def runOp : Writer → FieldOp → Writer
  | w, FieldOp.opInt8 tag v => fieldInt8 w tag v
  | w, FieldOp.opInt16 tag v => fieldInt16 w tag v
  | w, FieldOp.opInt32 tag v => fieldInt32 w tag v
  | w, FieldOp.opInt64 tag v => fieldInt64 w tag v
  | w, FieldOp.opUInt8 tag v => fieldUInt8 w tag v
  | w, FieldOp.opUInt16 tag v => fieldUInt16 w tag v
  | w, FieldOp.opUInt32 tag v => fieldUInt32 w tag v
  | w, FieldOp.opUInt64 tag v => fieldUInt64 w tag v
  | w, FieldOp.opBoolean tag v => fieldBoolean w tag v
  | w, FieldOp.opFloat16 tag v => fieldFloat16 w tag v
  | w, FieldOp.opFloat32 tag v => fieldFloat32 w tag v
  | w, FieldOp.opFloat64 tag v => fieldFloat64 w tag v
  | w, FieldOp.opString tag s => fieldString w tag s
  | w, FieldOp.opBinary tag d => fieldBinary w tag d
  | w, FieldOp.opFixedArray tag at' width vals => fieldArray w tag at' width vals
  | w, FieldOp.opStringArray tag elems =>
    let p := fieldStringArray w tag
    (arrayFinish (elems.foldl stringArrayAddElement p.1) p.2).1
  | w, FieldOp.opBinaryArray tag elems =>
    let p := fieldBinaryArray w tag
    (arrayFinish (elems.foldl binaryArrayAddElement p.1) p.2).1
  | w, FieldOp.opObject tag ops =>
    let p := fieldObject w tag
    (objectFinish (runOps p.1 ops) p.2).1
  | w, FieldOp.opObjectArray tag elems =>
    let p := fieldObjectArray w tag
    (arrayFinish (runObjElems p.1 elems) p.2).1

/-- Execute a sequence of field operations. -/
def runOps : Writer → List FieldOp → Writer
  | w, [] => w
  | w, o :: rest => runOps (runOp w o) rest

/-- Execute the elements of an object array: each is a `CreateElement`
scope run to completion and finished. -/
def runObjElems : Writer → List (List FieldOp) → Writer
  | w, [] => w
  | w, ops :: rest =>
    let p := objectArrayCreateElement w
    runObjElems ((objectFinish (runOps p.1 ops) p.2).1) rest

end

/-- The wire bytes of a field header. -/
def headerBytes (nb : Bool) (tag : DataTag) (ty : Nat) : List Nat :=
  toLE 1 ty ++ (if nb then toLE 1 tag.name.length ++ tag.name else toLE 2 tag.id)

/-- The wire bytes of one length-prefixed string element. -/
def stringBytes (s : List Nat) : List Nat :=
  toLE 2 (s.length % 2 ^ 16) ++ s.take (s.length % 2 ^ 16)

/-- The wire bytes of one size-prefixed binary element. -/
def binBytes (d : List Nat) : List Nat :=
  toLE 4 (d.length % 2 ^ 32) ++ d.take (d.length % 2 ^ 32)

/-- The payload bytes of a fixed-element array after the writer's
in-place endianness normalization. -/
def fixedArrayBytes (h : Endian) (width : Nat) (vals : List Nat) : List Nat :=
  let size := vals.length % 2 ^ 32 * width % 2 ^ 32
  if h = Endian.little ∨ width ≤ 1 then
    ((vals.map (hostMemBytes h width)).flatten).take size
  else
    swapChunks width (vals.length % 2 ^ 32)
      (((vals.map (hostMemBytes h width)).flatten).take size)

mutual

/-- The exact bytes `runOp` appends to the buffer. -/
def opBytes (h : Endian) (nb : Bool) : FieldOp → List Nat
  | FieldOp.opInt8 tag v => headerBytes nb tag DataType.Int8 ++ toLE 1 v
  | FieldOp.opInt16 tag v => headerBytes nb tag DataType.Int16 ++ toLE 2 v
  | FieldOp.opInt32 tag v => headerBytes nb tag DataType.Int32 ++ toLE 4 v
  | FieldOp.opInt64 tag v => headerBytes nb tag DataType.Int64 ++ toLE 8 v
  | FieldOp.opUInt8 tag v => headerBytes nb tag DataType.UInt8 ++ toLE 1 v
  | FieldOp.opUInt16 tag v => headerBytes nb tag DataType.UInt16 ++ toLE 2 v
  | FieldOp.opUInt32 tag v => headerBytes nb tag DataType.UInt32 ++ toLE 4 v
  | FieldOp.opUInt64 tag v => headerBytes nb tag DataType.UInt64 ++ toLE 8 v
  | FieldOp.opBoolean tag v =>
    headerBytes nb tag DataType.Boolean ++ toLE 1 (if v then 1 else 0)
  | FieldOp.opFloat16 tag v =>
    headerBytes nb tag DataType.Float16 ++ hostMemBytes h 2 v
  | FieldOp.opFloat32 tag v =>
    headerBytes nb tag DataType.Float32 ++ hostMemBytes h 4 v
  | FieldOp.opFloat64 tag v =>
    headerBytes nb tag DataType.Float64 ++ hostMemBytes h 8 v
  | FieldOp.opString tag s => headerBytes nb tag DataType.String ++ stringBytes s
  | FieldOp.opBinary tag d => headerBytes nb tag DataType.Binary ++ binBytes d
  | FieldOp.opFixedArray tag at' width vals =>
    headerBytes nb tag at' ++
      (toLE 4 (vals.length % 2 ^ 32 * width % 2 ^ 32) ++
        fixedArrayBytes h width vals)
  | FieldOp.opStringArray tag elems =>
    headerBytes nb tag DataType.StringArray ++
      (toLE 4 ((elems.map stringBytes).flatten.length % 2 ^ 32) ++
        (elems.map stringBytes).flatten)
  | FieldOp.opBinaryArray tag elems =>
    headerBytes nb tag DataType.BinaryArray ++
      (toLE 4 ((elems.map binBytes).flatten.length % 2 ^ 32) ++
        (elems.map binBytes).flatten)
  | FieldOp.opObject tag ops =>
    headerBytes nb tag DataType.Object ++
      (toLE 4 ((opsBytes h nb ops).length % 2 ^ 32) ++ opsBytes h nb ops)
  | FieldOp.opObjectArray tag elems =>
    headerBytes nb tag DataType.ObjectArray ++
      (toLE 4 ((objElemsBytes h nb elems).length % 2 ^ 32) ++
        objElemsBytes h nb elems)

/-- The exact bytes `runOps` appends. -/
def opsBytes (h : Endian) (nb : Bool) : List FieldOp → List Nat
  | [] => []
  | o :: rest => opBytes h nb o ++ opsBytes h nb rest

/-- The exact bytes `runObjElems` appends. -/
def objElemsBytes (h : Endian) (nb : Bool) : List (List FieldOp) → List Nat
  | [] => []
  | ops :: rest =>
    (toLE 4 ((opsBytes h nb ops).length % 2 ^ 32) ++ opsBytes h nb ops) ++
      objElemsBytes h nb rest

end

theorem writeDataNum_swap_append (wd v : Nat) (wr : Writer) :
    writeDataNum true wd v wr = { wr with buffer := wr.buffer ++ toLE wd v } := by
  unfold writeDataNum
  by_cases h1 : wd = 1
  · subst h1
    simp [show toLE 1 v = [v % 256] from rfl]
  · simp [h1, hostMemBytes_adjust]

theorem writeDataNum_noswap_append (wd v : Nat) (wr : Writer) :
    writeDataNum false wd v wr =
      { wr with buffer := wr.buffer ++ hostMemBytes wr.host wd v } := by
  unfold writeDataNum
  by_cases h1 : wd = 1
  · subst h1
    cases hh : wr.host <;>
      simp [hostMemBytes, hh, show toLE 1 v = [v % 256] from rfl]
  · simp [h1]

theorem writeFieldHeader_append (wr : Writer) (tag : DataTag) (ty : Nat) :
    writeFieldHeader wr tag ty =
      { wr with buffer := wr.buffer ++ headerBytes wr.nameBased tag ty } := by
  unfold writeFieldHeader headerBytes
  rw [writeDataNum_swap_append]
  by_cases hnb : wr.nameBased <;>
    simp [hnb, writeDataNum_swap_append, writeDataRaw, List.append_assoc]

theorem writeString_append (wr : Writer) (s : List Nat) :
    writeString wr s = { wr with buffer := wr.buffer ++ stringBytes s } := by
  unfold writeString stringBytes writeDataRaw
  rw [writeDataNum_swap_append]
  simp [List.append_assoc]

theorem writeBinary_append (wr : Writer) (d : List Nat) :
    writeBinary wr d = { wr with buffer := wr.buffer ++ binBytes d } := by
  unfold writeBinary binBytes writeDataRaw
  rw [writeDataNum_swap_append]
  simp [List.append_assoc]

theorem patchBytes_at (pre slot post bs : List Nat)
    (hslot : slot.length = bs.length) :
    patchBytes (pre ++ (slot ++ post)) pre.length bs = pre ++ (bs ++ post) := by
  unfold patchBytes
  rw [List.take_left' rfl]
  rw [show pre.length + bs.length = (pre ++ slot).length by simp [hslot]]
  rw [show pre ++ (slot ++ post) = (pre ++ slot) ++ post by simp]
  rw [List.drop_left]
  simp

theorem writeDataSizeField_append (wr : Writer) (pre slot post : List Nat)
    (hbuf : wr.buffer = pre ++ (slot ++ post)) (hslot : slot.length = 4) :
    writeDataSizeField wr pre.length =
      { wr with buffer := pre ++ (toLE 4 (post.length % 2 ^ 32) ++ post) } := by
  unfold writeDataSizeField
  rw [hostMemBytes_adjust, hbuf]
  rw [show (pre ++ (slot ++ post)).length - pre.length - 4 = post.length by
    simp [hslot]]
  rw [patchBytes_at pre slot post _ (by simp [hslot])]

/-- Closing a just-opened scope whose slot sits right after `pre` in a
buffer of shape `pre ++ [0,0,0,0] ++ post` patches the slot with the
length of `post`. -/
theorem writeDataSizeField_slot (h : Endian) (nb : Bool)
    (pre post : List Nat) :
    writeDataSizeField ⟨h, nb, pre ++ [0, 0, 0, 0] ++ post⟩ pre.length =
      ⟨h, nb, pre ++ (toLE 4 (post.length % 2 ^ 32) ++ post)⟩ := by
  rw [writeDataSizeField_append _ pre [0, 0, 0, 0] post
    (by simp [List.append_assoc]) (by simp)]

theorem adjustArrayEndianess_at (h : Endian) (width count : Nat)
    (pre post : List Nat) :
    adjustArrayEndianess h width count (pre ++ post) pre.length =
      pre ++ (if h = Endian.little ∨ width ≤ 1 then post
              else swapChunks width count post) := by
  unfold adjustArrayEndianess
  split_ifs with hc
  · rfl
  · rw [List.take_left, List.drop_left]

theorem foldl_stringAdd_append (elems : List (List Nat)) (wr : Writer) :
    elems.foldl stringArrayAddElement wr =
      { wr with buffer := wr.buffer ++ (elems.map stringBytes).flatten } := by
  induction elems generalizing wr with
  | nil => simp
  | cons e rest ih =>
    simp only [List.foldl_cons, List.map_cons, List.flatten_cons]
    rw [show stringArrayAddElement wr e = writeString wr e from rfl,
      writeString_append, ih]
    simp [List.append_assoc]

theorem foldl_binaryAdd_append (elems : List (List Nat)) (wr : Writer) :
    elems.foldl binaryArrayAddElement wr =
      { wr with buffer := wr.buffer ++ (elems.map binBytes).flatten } := by
  induction elems generalizing wr with
  | nil => simp
  | cons e rest ih =>
    simp only [List.foldl_cons, List.map_cons, List.flatten_cons]
    rw [show binaryArrayAddElement wr e = writeBinary wr e from rfl,
      writeBinary_append, ih]
    simp [List.append_assoc]

theorem fieldArray_append (w : Writer) (tag : DataTag) (at' width : Nat)
    (vals : List Nat) :
    fieldArray w tag at' width vals =
      { w with buffer := w.buffer ++
          (headerBytes w.nameBased tag at' ++
            (toLE 4 (vals.length % 2 ^ 32 * width % 2 ^ 32) ++
              fixedArrayBytes w.host width vals)) } := by
  simp only [fieldArray, writeFieldHeader_append, writeDataNum_swap_append,
    writeDataRaw]
  rw [adjustArrayEndianess_at]
  simp only [fixedArrayBytes]
  split_ifs <;> simp [List.append_assoc]

mutual

theorem runOp_append (w : Writer) (op : FieldOp) :
    runOp w op = { w with buffer := w.buffer ++ opBytes w.host w.nameBased op } := by
  cases op with
  | opInt8 tag v =>
    simp [runOp, fieldInt8, opBytes, writeFieldHeader_append,
      writeDataNum_swap_append, List.append_assoc]
  | opInt16 tag v =>
    simp [runOp, fieldInt16, opBytes, writeFieldHeader_append,
      writeDataNum_swap_append, List.append_assoc]
  | opInt32 tag v =>
    simp [runOp, fieldInt32, opBytes, writeFieldHeader_append,
      writeDataNum_swap_append, List.append_assoc]
  | opInt64 tag v =>
    simp [runOp, fieldInt64, opBytes, writeFieldHeader_append,
      writeDataNum_swap_append, List.append_assoc]
  | opUInt8 tag v =>
    simp [runOp, fieldUInt8, opBytes, writeFieldHeader_append,
      writeDataNum_swap_append, List.append_assoc]
  | opUInt16 tag v =>
    simp [runOp, fieldUInt16, opBytes, writeFieldHeader_append,
      writeDataNum_swap_append, List.append_assoc]
  | opUInt32 tag v =>
    simp [runOp, fieldUInt32, opBytes, writeFieldHeader_append,
      writeDataNum_swap_append, List.append_assoc]
  | opUInt64 tag v =>
    simp [runOp, fieldUInt64, opBytes, writeFieldHeader_append,
      writeDataNum_swap_append, List.append_assoc]
  | opBoolean tag v =>
    simp [runOp, fieldBoolean, opBytes, writeFieldHeader_append,
      writeDataNum_swap_append, List.append_assoc]
  | opFloat16 tag v =>
    simp [runOp, fieldFloat16, opBytes, writeFieldHeader_append,
      writeDataNum_noswap_append, List.append_assoc]
  | opFloat32 tag v =>
    simp [runOp, fieldFloat32, opBytes, writeFieldHeader_append,
      writeDataNum_noswap_append, List.append_assoc]
  | opFloat64 tag v =>
    simp [runOp, fieldFloat64, opBytes, writeFieldHeader_append,
      writeDataNum_noswap_append, List.append_assoc]
  | opString tag s =>
    simp [runOp, fieldString, opBytes, writeFieldHeader_append,
      writeString_append, List.append_assoc]
  | opBinary tag d =>
    simp [runOp, fieldBinary, opBytes, writeFieldHeader_append,
      writeBinary_append, List.append_assoc]
  | opFixedArray tag at' width vals =>
    simp [runOp, opBytes, fieldArray_append, List.append_assoc]
  | opStringArray tag elems =>
    simp only [runOp, fieldStringArray, arrayWriterMk, reserveDataSizeField,
      writeFieldHeader_append, foldl_stringAdd_append, arrayFinish,
      Bool.false_eq_true, if_false]
    rw [writeDataSizeField_slot]
    simp [opBytes, List.append_assoc]
  | opBinaryArray tag elems =>
    simp only [runOp, fieldBinaryArray, arrayWriterMk, reserveDataSizeField,
      writeFieldHeader_append, foldl_binaryAdd_append, arrayFinish,
      Bool.false_eq_true, if_false]
    rw [writeDataSizeField_slot]
    simp [opBytes, List.append_assoc]
  | opObject tag ops =>
    simp only [runOp, fieldObject, objectWriterMk, reserveDataSizeField,
      writeFieldHeader_append, objectFinish, Bool.false_eq_true, if_false]
    rw [runOps_append]
    simp only []
    rw [writeDataSizeField_slot]
    simp [opBytes, List.append_assoc]
  | opObjectArray tag elems =>
    simp only [runOp, fieldObjectArray, arrayWriterMk, reserveDataSizeField,
      writeFieldHeader_append, arrayFinish, Bool.false_eq_true, if_false]
    rw [runObjElems_append]
    simp only []
    rw [writeDataSizeField_slot]
    simp [opBytes, List.append_assoc]

theorem runOps_append (w : Writer) (ops : List FieldOp) :
    runOps w ops =
      { w with buffer := w.buffer ++ opsBytes w.host w.nameBased ops } := by
  cases ops with
  | nil => simp [runOps, opsBytes]
  | cons o rest =>
    rw [runOps, runOp_append, runOps_append]
    simp [opsBytes, List.append_assoc]

theorem runObjElems_append (w : Writer) (elems : List (List FieldOp)) :
    runObjElems w elems =
      { w with buffer := w.buffer ++ objElemsBytes w.host w.nameBased elems } := by
  cases elems with
  | nil => simp [runObjElems, objElemsBytes]
  | cons ops rest =>
    simp only [runObjElems, objectArrayCreateElement, objectWriterMk,
      reserveDataSizeField, objectFinish, Bool.false_eq_true, if_false]
    rw [runOps_append]
    simp only []
    rw [writeDataSizeField_slot]
    rw [runObjElems_append]
    simp [objElemsBytes, List.append_assoc]

end

/-- C6: after `Finish` closes a scope (scopes used LIFO, inner scopes
finished first), the 4-byte size slot reserved at the scope's start holds
exactly the byte length of the field/element sequence written inside it,
the prefix itself not counted; and a fixed-element array's written size
field is exactly `count × element-size`.  Stated for nested-object
scopes, string-array, binary-array and object-array scopes over arbitrary
operation sequences, and for `FieldArray`, on either host and in either
tag mode, under the `uint32_t` range conditions. -/
theorem c6_size_law :
    (∀ (w : Writer) (tag : DataTag) (ops : List FieldOp),
      (opsBytes w.host w.nameBased ops).length < 2 ^ 32 →
      (objectFinish (runOps (fieldObject w tag).1 ops) (fieldObject w tag).2).1 =
        { w with buffer := w.buffer ++
            (headerBytes w.nameBased tag DataType.Object ++
              (toLE 4 (opsBytes w.host w.nameBased ops).length ++
                opsBytes w.host w.nameBased ops)) }) ∧
    (∀ (w : Writer) (tag : DataTag) (elems : List (List Nat)),
      ((elems.map stringBytes).flatten).length < 2 ^ 32 →
      (arrayFinish (elems.foldl stringArrayAddElement (fieldStringArray w tag).1)
          (fieldStringArray w tag).2).1 =
        { w with buffer := w.buffer ++
            (headerBytes w.nameBased tag DataType.StringArray ++
              (toLE 4 ((elems.map stringBytes).flatten).length ++
                (elems.map stringBytes).flatten)) }) ∧
    (∀ (w : Writer) (tag : DataTag) (elems : List (List Nat)),
      ((elems.map binBytes).flatten).length < 2 ^ 32 →
      (arrayFinish (elems.foldl binaryArrayAddElement (fieldBinaryArray w tag).1)
          (fieldBinaryArray w tag).2).1 =
        { w with buffer := w.buffer ++
            (headerBytes w.nameBased tag DataType.BinaryArray ++
              (toLE 4 ((elems.map binBytes).flatten).length ++
                (elems.map binBytes).flatten)) }) ∧
    (∀ (w : Writer) (tag : DataTag) (elems : List (List FieldOp)),
      (objElemsBytes w.host w.nameBased elems).length < 2 ^ 32 →
      (arrayFinish (runObjElems (fieldObjectArray w tag).1 elems)
          (fieldObjectArray w tag).2).1 =
        { w with buffer := w.buffer ++
            (headerBytes w.nameBased tag DataType.ObjectArray ++
              (toLE 4 (objElemsBytes w.host w.nameBased elems).length ++
                objElemsBytes w.host w.nameBased elems)) }) ∧
    (∀ (w : Writer) (tag : DataTag) (at' width : Nat) (vals : List Nat),
      vals.length < 2 ^ 32 → vals.length * width < 2 ^ 32 →
      fieldArray w tag at' width vals =
        { w with buffer := w.buffer ++
            (headerBytes w.nameBased tag at' ++
              (toLE 4 (vals.length * width) ++
                fixedArrayBytes w.host width vals)) }) := by
  refine ⟨?_, ?_, ?_, ?_, ?_⟩
  · intro w tag ops hlen
    rw [show (objectFinish (runOps (fieldObject w tag).1 ops)
        (fieldObject w tag).2).1 = runOp w (FieldOp.opObject tag ops) from rfl]
    rw [runOp_append]
    simp only [opBytes]
    rw [Nat.mod_eq_of_lt hlen]
  · intro w tag elems hlen
    rw [show (arrayFinish (elems.foldl stringArrayAddElement
        (fieldStringArray w tag).1) (fieldStringArray w tag).2).1 =
      runOp w (FieldOp.opStringArray tag elems) from rfl]
    rw [runOp_append]
    simp only [opBytes]
    rw [Nat.mod_eq_of_lt hlen]
  · intro w tag elems hlen
    rw [show (arrayFinish (elems.foldl binaryArrayAddElement
        (fieldBinaryArray w tag).1) (fieldBinaryArray w tag).2).1 =
      runOp w (FieldOp.opBinaryArray tag elems) from rfl]
    rw [runOp_append]
    simp only [opBytes]
    rw [Nat.mod_eq_of_lt hlen]
  · intro w tag elems hlen
    rw [show (arrayFinish (runObjElems (fieldObjectArray w tag).1 elems)
        (fieldObjectArray w tag).2).1 =
      runOp w (FieldOp.opObjectArray tag elems) from rfl]
    rw [runOp_append]
    simp only [opBytes]
    rw [Nat.mod_eq_of_lt hlen]
  · intro w tag at' width vals hlen1 hlen2
    rw [fieldArray_append]
    rw [Nat.mod_eq_of_lt hlen1, Nat.mod_eq_of_lt hlen2]

/-- C6 witness: the object-scope size law and the fixed-array size law
instantiated on concrete inputs (one `Int8` field inside a nested object;
a 3-element `Int32` array). -/
theorem c6_size_law_witness :
    ((opsBytes Endian.little false [FieldOp.opInt8 ⟨2, []⟩ 5]).length < 2 ^ 32 ∧
      (objectFinish
          (runOps (fieldObject (⟨Endian.little, false, []⟩ : Writer) ⟨1, []⟩).1
            [FieldOp.opInt8 ⟨2, []⟩ 5])
          (fieldObject (⟨Endian.little, false, []⟩ : Writer) ⟨1, []⟩).2).1 =
        { (⟨Endian.little, false, []⟩ : Writer) with buffer := [] ++
            (headerBytes false ⟨1, []⟩ DataType.Object ++
              (toLE 4 (opsBytes Endian.little false
                  [FieldOp.opInt8 ⟨2, []⟩ 5]).length ++
                opsBytes Endian.little false [FieldOp.opInt8 ⟨2, []⟩ 5])) }) ∧
    ((3 : Nat) < 2 ^ 32 ∧ (3 : Nat) * 4 < 2 ^ 32 ∧
      fieldArray (⟨Endian.little, false, []⟩ : Writer) ⟨1, []⟩
          DataType.Int32Array 4 [10, 20, 30] =
        { (⟨Endian.little, false, []⟩ : Writer) with buffer := [] ++
            (headerBytes false ⟨1, []⟩ DataType.Int32Array ++
              (toLE 4 (3 * 4) ++
                fixedArrayBytes Endian.little 4 [10, 20, 30])) }) :=
  ⟨⟨by decide,
    c6_size_law.1 ⟨Endian.little, false, []⟩ ⟨1, []⟩
      [FieldOp.opInt8 ⟨2, []⟩ 5] (by decide)⟩,
   ⟨by decide, by decide,
    c6_size_law.2.2.2.2 ⟨Endian.little, false, []⟩ ⟨1, []⟩
      DataType.Int32Array 4 [10, 20, 30] (by decide) (by decide)⟩⟩

/-! ## Scope release (C3) -/

/-- An id-mode trace where a nested-object scope holding one `Int8` field
is destroyed WITHOUT an explicit `Finish`, then the root is finished. -/
def objScopeDropTrace : Writer :=
  (objectFinish
    (objectWriterDestroy
      (fieldInt8 (fieldObject (writerMk Endian.little false).1 ⟨1, []⟩).1
        ⟨2, []⟩ 5)
      (fieldObject (writerMk Endian.little false).1 ⟨1, []⟩).2)
    (writerMk Endian.little false).2).1

/-- The same trace with the nested scope closed by an explicit `Finish`. -/
def objScopeFinishTrace : Writer :=
  (objectFinish
    ((objectFinish
      (fieldInt8 (fieldObject (writerMk Endian.little false).1 ⟨1, []⟩).1
        ⟨2, []⟩ 5)
      (fieldObject (writerMk Endian.little false).1 ⟨1, []⟩).2).1)
    (writerMk Endian.little false).2).1

/-- C3 counterexample: destroying a nested-object scope handle without
`Finish` does NOT back-patch its reserved size slot.  `ObjectWriter`
declares no destructor, so in the drop trace the child's 4-byte slot (at
offset 7) still holds zeros, whereas the explicitly finished trace holds
the correct back-patched size `4 = current_offset − slot_offset − 4`. -/
theorem c3_scope_destroy_counterexample :
    objScopeDropTrace ≠ objScopeFinishTrace ∧
    slice objScopeDropTrace.buffer 7 4 = [0, 0, 0, 0] ∧
    slice objScopeFinishTrace.buffer 7 4 = toLE 4 4 := by
  refine ⟨by decide, by decide, by decide⟩

/-- C3 amended: destroying a variable-element-array scope
(`StringArrayWriter`, `BinaryArrayWriter`, `ObjectArrayWriter`) without an
explicit `Finish` still back-patches the scope's reserved 4-byte slot with
`current_offset − slot_offset − 4` (the virtual `~ArrayWriter` runs
`Finish`), and closing is idempotent for every scope kind (a second
`Finish` changes nothing); but a nested-object scope (`ObjectWriter` from
`FieldObject` or `ObjectArrayWriter::CreateElement`) has no
destructor-driven close: destroying its handle leaves the writer
untouched, so its slot keeps the reserved zeros. -/
theorem c3_scope_release_amended :
    (∀ (w : Writer) (tag : DataTag) (elems : List (List Nat)),
      ((elems.map stringBytes).flatten).length < 2 ^ 32 →
      arrayWriterDestroy
          (elems.foldl stringArrayAddElement (fieldStringArray w tag).1)
          (fieldStringArray w tag).2 =
        { w with buffer := w.buffer ++
            (headerBytes w.nameBased tag DataType.StringArray ++
              (toLE 4 ((elems.map stringBytes).flatten).length ++
                (elems.map stringBytes).flatten)) }) ∧
    (∀ (w : Writer) (tag : DataTag) (elems : List (List Nat)),
      ((elems.map binBytes).flatten).length < 2 ^ 32 →
      arrayWriterDestroy
          (elems.foldl binaryArrayAddElement (fieldBinaryArray w tag).1)
          (fieldBinaryArray w tag).2 =
        { w with buffer := w.buffer ++
            (headerBytes w.nameBased tag DataType.BinaryArray ++
              (toLE 4 ((elems.map binBytes).flatten).length ++
                (elems.map binBytes).flatten)) }) ∧
    (∀ (w : Writer) (tag : DataTag) (elems : List (List FieldOp)),
      (objElemsBytes w.host w.nameBased elems).length < 2 ^ 32 →
      arrayWriterDestroy (runObjElems (fieldObjectArray w tag).1 elems)
          (fieldObjectArray w tag).2 =
        { w with buffer := w.buffer ++
            (headerBytes w.nameBased tag DataType.ObjectArray ++
              (toLE 4 (objElemsBytes w.host w.nameBased elems).length ++
                objElemsBytes w.host w.nameBased elems)) }) ∧
    (∀ (w : Writer) (ow : ObjectWriter), objectWriterDestroy w ow = w) ∧
    (∀ (w : Writer) (ow : ObjectWriter),
      objectFinish (objectFinish w ow).1 (objectFinish w ow).2 =
        objectFinish w ow) ∧
    (∀ (w : Writer) (aw : ArrayWriter),
      arrayFinish (arrayFinish w aw).1 (arrayFinish w aw).2 =
        arrayFinish w aw) := by
  refine ⟨?_, ?_, ?_, fun w ow => rfl, ?_, ?_⟩
  · intro w tag elems hlen
    rw [show arrayWriterDestroy
        (elems.foldl stringArrayAddElement (fieldStringArray w tag).1)
        (fieldStringArray w tag).2 =
      runOp w (FieldOp.opStringArray tag elems) from rfl]
    rw [runOp_append]
    simp only [opBytes]
    rw [Nat.mod_eq_of_lt hlen]
  · intro w tag elems hlen
    rw [show arrayWriterDestroy
        (elems.foldl binaryArrayAddElement (fieldBinaryArray w tag).1)
        (fieldBinaryArray w tag).2 =
      runOp w (FieldOp.opBinaryArray tag elems) from rfl]
    rw [runOp_append]
    simp only [opBytes]
    rw [Nat.mod_eq_of_lt hlen]
  · intro w tag elems hlen
    rw [show arrayWriterDestroy (runObjElems (fieldObjectArray w tag).1 elems)
        (fieldObjectArray w tag).2 =
      runOp w (FieldOp.opObjectArray tag elems) from rfl]
    rw [runOp_append]
    simp only [opBytes]
    rw [Nat.mod_eq_of_lt hlen]
  · intro w ow
    by_cases hf : ow.isFinished <;> simp [objectFinish, hf]
  · intro w aw
    by_cases hf : aw.isFinished <;> simp [arrayFinish, hf]

/-- C3 amended witness: dropping a string-array scope holding `"ab"`
without `Finish` produces the back-patched buffer. -/
theorem c3_scope_release_amended_witness :
    ((([[97, 98]].map stringBytes).flatten).length < 2 ^ 32) ∧
    arrayWriterDestroy
        ([[97, 98]].foldl stringArrayAddElement
          (fieldStringArray (⟨Endian.little, false, []⟩ : Writer) ⟨1, []⟩).1)
        (fieldStringArray (⟨Endian.little, false, []⟩ : Writer) ⟨1, []⟩).2 =
      { (⟨Endian.little, false, []⟩ : Writer) with buffer := [] ++
          (headerBytes false ⟨1, []⟩ DataType.StringArray ++
            (toLE 4 (([[97, 98]].map stringBytes).flatten).length ++
              ([[97, 98]].map stringBytes).flatten)) } :=
  ⟨by decide,
   c3_scope_release_amended.1 ⟨Endian.little, false, []⟩ ⟨1, []⟩ [[97, 98]]
     (by decide)⟩

/-! ## The string-array reader bug (C4) -/

/-- An id-mode trace writing a string array with the single element `"a"`
via `StringArrayWriter::AddElement` and `Finish`. -/
def c4Trace : Writer :=
  (objectFinish
    ((arrayFinish
      (stringArrayAddElement
        (fieldStringArray (writerMk Endian.little false).1 ⟨1, []⟩).1 [97])
      (fieldStringArray (writerMk Endian.little false).1 ⟨1, []⟩).2).1)
    (writerMk Endian.little false).2).1

/-- The same trace with the single element `"ab"` instead. -/
def c4TraceOk : Writer :=
  (objectFinish
    ((arrayFinish
      (stringArrayAddElement
        (fieldStringArray (writerMk Endian.little false).1 ⟨1, []⟩).1 [97, 98])
      (fieldStringArray (writerMk Endian.little false).1 ⟨1, []⟩).2).1)
    (writerMk Endian.little false).2).1

/-- C4: evaluation of the code at the failing input.  The writer-produced
string array `["a"]` has payload `len=1 ‖ "a"` whose prefix sums terminate
exactly at the payload end (2 + 1 = 3 = size), yet
`ArrayReader<uint16_t>::Initialize` checks
`CanAccessBuffer(read_ptr, buff_end, sizeof(FieldSize))` — four bytes,
`sizeof(FieldSize)`, instead of the two-byte `sizeof(ElementSizeType)` —
so the reader reports the array invalid with zero elements and yields
nothing, while the same array with element `"ab"` (last element length
≥ 2) is accepted with count 1. -/
theorem c4_string_array_last_element_bug :
    (mkObjectReader Endian.little false c4Trace.buffer 0).valid = true ∧
    ((readStringArray (mkObjectReader Endian.little false c4Trace.buffer 0)
        ⟨1, []⟩).map fun a => (a.valid, a.count)) = some (false, 0) ∧
    ((readStringArray (mkObjectReader Endian.little false c4Trace.buffer 0)
        ⟨1, []⟩).map fun a => stringArrayGetElement a 0) = some none ∧
    ((readStringArray (mkObjectReader Endian.little false c4TraceOk.buffer 0)
        ⟨1, []⟩).map fun a => (a.valid, a.count, stringArrayGetElement a 0)) =
      some (true, 1, some [97, 98]) := by
  refine ⟨by decide, by decide, by decide, by decide⟩

/-! ## Endianness (C5) -/

/-- The buffer of a one-`Float32`-field id-mode trace (bit pattern of
`1.0f`), parameterized by the producing host. -/
def c5Trace (h : Endian) : Writer :=
  (objectFinish (fieldFloat32 (writerMk h false).1 ⟨1, []⟩ 0x3F800000)
    (writerMk h false).2).1

/-- C5: evaluation of the code at the failing input.  `FieldFloat32`
writes the float's bit pattern with `swap_endianess = false` — raw host
byte order — so a big-endian producer emits `3F 80 00 00` where a
little-endian producer emits `00 00 80 3F`; decoding both buffers on a
little-endian host yields different values (`0x3F800000` vs
`0x0000803F`), refuting the claimed observational equivalence between the
big-endian-host and little-endian-host instantiations. -/
theorem c5_endianness_divergence :
    readFloat32 (mkObjectReader Endian.little false
      (c5Trace Endian.little).buffer 0) ⟨1, []⟩ = some 0x3F800000 ∧
    readFloat32 (mkObjectReader Endian.little false
      (c5Trace Endian.big).buffer 0) ⟨1, []⟩ = some 0x0000803F ∧
    (0x0000803F : Nat) ≠ 0x3F800000 := by
  refine ⟨by decide, by decide, by decide⟩

end TBF
